import Mathlib

/-!
Verification development for the `archive2webp` repository.

The repository contains two command-line programs sharing one optimization
core:

* `src/jpeg-recompress.c` — re-encodes a JPEG at the lowest quality whose
  perceptual score still meets a target, preserving the original file's
  metadata segments and marking the output with a signature comment;
* `src/archive2webp.c`    — converts a JPEG/PPM input to WebP using the same
  quality-targeted bisection search, writing the winner unconditionally.

This file shallowly embeds the search loop, the size-guard policy, the
metadata extraction / idempotency detection, and the output assembly of both
programs.  Machine floats (`float` scores, targets, diffs) are modelled as
exact rationals `ℚ`; the `FLT_MAX` / `INT_MIN` "no best yet" sentinels are
modelled as `Option.none`; byte buffers are `List ℕ`.  The external codecs
and metrics (libjpeg, libwebp, iqa, smallfry — outside this repository) are
modelled as opaque deterministic functions supplied as parameters, exactly as
the specification's §4.3 prescribes.  Helper functions of the repository that
live in `src/util.c` (not present under `src/`) are modelled from the
specification's own words and are marked `Modelled from the spec:` in their
doc comments.
-/

namespace A2W

/-- Comparison metric, from `enum METHOD` in both sources.  The `UNKNOWN`
variant is excluded: both `main`s exit with code 255 before the search when
`method == UNKNOWN`, so the search never sees it. -/
inductive Method
  | ssim
  | msSsim
  | smallfry
  | mpe
  deriving DecidableEq, Repr

/-- Quality preset, from `enum QUALITY_PRESET` in both sources. -/
inductive Preset
  | low
  | medium
  | high
  | veryhigh
  deriving DecidableEq, Repr

/-- Input file type, from `enum filetype` (declared in the repository's
`src/util.h`, used by both `main`s). -/
inductive Filetype
  | auto
  | jpeg
  | ppm
  | unknown
  deriving DecidableEq, Repr

/-- Outcome of one run: either some bytes were written to the output path
together with the process exit code, or the run failed before writing. -/
inductive RunRes
  | wrote (exitCode : ℕ) (bytes : List ℕ)
  | failed (exitCode : ℕ)
  deriving DecidableEq, Repr

/-- ASCII bytes of `COMMENT = "Compressed by jpeg-recompress"`
(`src/jpeg-recompress.c` line 26), the signature string embedded in every
assembled output file. -/
def COMMENT : List ℕ :=
  [67, 111, 109, 112, 114, 101, 115, 115, 101, 100, 32,
   98, 121, 32,
   106, 112, 101, 103, 45, 114, 101, 99, 111, 109, 112, 114, 101, 115, 115]

theorem comment_length : COMMENT.length = 29 := by decide

/-- `minDelta` (`src/jpeg-recompress.c` line 27): minimum number of bytes an
optimized file must save over the original. -/
def minDelta : ℕ := 10

/-- `metaSizeCOM = strlen(COMMENT) + 4` (`src/jpeg-recompress.c` line 399):
byte overhead of the signature comment segment (2 marker bytes + 2 length
bytes + the string). -/
def metaSizeCOM : ℕ := COMMENT.length + 4

/-- The signature comment segment exactly as `main` writes it
(`src/jpeg-recompress.c` lines 675-680): marker `0xFF 0xFE`, big-endian
2-byte length `strlen(COMMENT) + 2`, then the ASCII string. -/
def sigSegment : List ℕ := 255 :: 254 :: 0 :: (COMMENT.length + 2) :: COMMENT

/-- `app0_lenP4 = 4 + (compressed[4] << 8) + compressed[5]`
(`src/jpeg-recompress.c` line 658): length of the leading SOI + APP0 header
segment of the freshly encoded candidate `c`. -/
def app0LenP4 (c : List ℕ) : ℕ := 4 + (c.getD 4 0) * 256 + c.getD 5 0

/-- Final output assembly of the metadata-preserving variant
(`src/jpeg-recompress.c` lines 657-709): the candidate's SOI + APP0 header
verbatim, the signature comment segment, the preserved metadata bytes
(empty when stripped or absent), then the candidate's compressed body. -/
def assembleOutput (c meta : List ℕ) : List ℕ :=
  c.take (app0LenP4 c) ++ sigSegment ++ meta ++ c.drop (app0LenP4 c)

/-- Structural validation before writing (`src/jpeg-recompress.c` lines
624-643): the candidate must begin with the SOI marker `FF D8`
(`checkJpegMagic`, modelled from the spec's "the winning candidate must begin
with the expected start-of-data marker") and an APP0 marker `FF E0` must
immediately follow. -/
def structOk (c : List ℕ) : Bool :=
  c.getD 0 0 == 255 && c.getD 1 0 == 216 && c.getD 2 0 == 255 && c.getD 3 0 == 224

/-- Is `m` a marker whose segment `getMetadata` lifts from the original file?
Modelled from the spec: metadata extraction keeps the "byte ranges of the
original file containing non-pixel auxiliary data (tag blocks)" — APP1..APP15
(EXIF / IPTC / XMP) and comment segments — "excluding the signature marker
slot the tool will itself write, and excluding the leading required
structural header" (APP0). -/
def isMetaMarker (m : ℕ) : Bool :=
  (225 ≤ m && m ≤ 239) || m == 254

/-- Modelled from the spec: the segment walk of `getMetadata` from the
repository's `src/util.c`, which is not under `src/`.  Walks the marker
segments that follow the SOI marker; a comment segment whose payload equals
the tool's signature string means the file was already processed (`none`);
otherwise returns the concatenated bytes of all auxiliary-data segments, in
file order.  Scanning stops at the start-of-scan marker (pixel data) or at
anything that is not a well-formed marker segment.  `fuel` only bounds the
recursion; one unit is consumed per segment and the initial supply is the
byte count, which is ample since every segment is at least 4 bytes. -/
def scanSegs (comment : List ℕ) : ℕ → List ℕ → Option (List ℕ)
  | 0, _ => some []
  | fuel + 1, 255 :: m :: l1 :: l2 :: rest =>
      if m = 218 then some []
      else if m = 254 ∧ rest.take (l1 * 256 + l2 - 2) = comment then none
      else
        (scanSegs comment fuel (rest.drop (l1 * 256 + l2 - 2))).map fun acc =>
          if isMetaMarker m then
            (255 :: m :: l1 :: l2 :: rest.take (l1 * 256 + l2 - 2)) ++ acc
          else acc
  | _ + 1, _ => some []

/-- Modelled from the spec: `getMetadata(buf, bufSize, &metaBuf, &metaSize,
COMMENT)` from `src/util.c` (not under `src/`).  `none` means the signature
comment was found (file already processed); `some meta` returns the
extracted auxiliary-data bytes. -/
def getMeta (buf : List ℕ) : Option (List ℕ) :=
  match buf with
  | 255 :: 216 :: rest => scanSegs COMMENT rest.length rest
  | _ => some []

/-- Modelled from the spec: `detectFiletypeFromBuffer` from `src/util.c` (not
under `src/`): a buffer starting with the JPEG SOI marker is detected as
JPEG. -/
def detectFiletype (buf : List ℕ) : Filetype :=
  match buf with
  | 255 :: 216 :: _ => .jpeg
  | _ => .unknown

/-- Effective input file type: the command-line override, or auto-detection
from the buffer (`src/jpeg-recompress.c` lines 411-412, `src/archive2webp.c`
lines 357-358). -/
def effFiletype (ft : Filetype) (buf : List ℕ) : Filetype :=
  if ft = .auto then detectFiletype buf else ft

end A2W

namespace A2W

/-- Does a higher metric score mean better quality?  True for SSIM, MS-SSIM
and Smallfry; false for mean pixel error (spec §3, Table and branch code in
both sources). -/
def higherBetter : Method → Bool
  | .mpe => false
  | _ => true

/-- `quality = (min + max) / 2` (`src/jpeg-recompress.c` line 482,
`src/archive2webp.c` line 415).  Bounds are natural numbers (the programs
validate `qMin ≤ qMax`; the quality domain is 1..99), so C's truncating
division coincides with `Nat` division. -/
def midpoint (lo hi : ℕ) : ℕ := (lo + hi) / 2

/-- Interval update after scoring, from `src/jpeg-recompress.c` lines 575-596
and `src/archive2webp.c` lines 501-526.  `below` is `metric < target`.
For `q = 0` the C expression `MAX(quality - 1, min)` evaluates `-1` against
`min ≥ 0` and returns `min`, which agrees with truncated subtraction here. -/
def updateBounds (m : Method) (q lo hi : ℕ) (below : Bool) : ℕ × ℕ :=
  if below then
    if higherBetter m then (Nat.min (q + 1) hi, hi) else (lo, Nat.max (q - 1) lo)
  else
    if higherBetter m then (lo, Nat.max (q - 1) lo) else (Nat.min (q + 1) hi, hi)

/-- Best-candidate update (`src/jpeg-recompress.c` lines 540-544,
`src/archive2webp.c` lines 489-493).  `none` models the initial
`bestDiff = FLT_MAX`, `bestQuality = INT_MIN` sentinels; the pair stores
`(bestQuality, bestDiff)`.  Only a strictly smaller `|target - score|`
replaces the best. -/
def updBest (target score : ℚ) (q : ℕ) (best : Option (ℕ × ℚ)) : Option (ℕ × ℚ) :=
  let d := |target - score|
  match best with
  | none => some (q, d)
  | some (bq, bd) => if d < bd then some (q, d) else some (bq, bd)

/-- `bestQuality` component of the search state (`INT_MIN` sentinel as
`none`). -/
def bestQual (best : Option (ℕ × ℚ)) : Option ℕ := best.map Prod.fst

/-- `bestDiff` component, valued in `WithTop ℚ` so that the initial
`FLT_MAX` sentinel compares above every real diff. -/
def bestDiffT (best : Option (ℕ × ℚ)) : WithTop ℚ :=
  match best with
  | none => ⊤
  | some (_, d) => (d : WithTop ℚ)

/-- Early-termination test performed at the top of every loop iteration
(`src/jpeg-recompress.c` lines 486-491, `src/archive2webp.c` lines 417-423):
the trial quality revisits the current best, or the interval collapsed. -/
def earlyStop (q lo hi : ℕ) (best : Option (ℕ × ℚ)) : Bool :=
  bestQual best == some q || lo == hi

/-- Record of one completed search iteration (one encode / decode / score
cycle followed by a bound update). -/
structure Iter where
  lo : ℕ
  hi : ℕ
  quality : ℕ
  isFinal : Bool
  score : ℚ
  bestBefore : Option (ℕ × ℚ)
  bestAfter : Option (ℕ × ℚ)
  loNext : ℕ
  hiNext : ℕ
  deriving DecidableEq, Repr

/-- One full iteration body shared by both variants: compute the midpoint
quality, update the best on strict improvement, and update the bounds from
the polarity-dependent branch table. -/
def iterCore (m : Method) (t : ℚ) (isFinal : Bool) (lo hi : ℕ) (best : Option (ℕ × ℚ))
    (s : ℚ) : Iter :=
  let q := midpoint lo hi
  let best2 := updBest t s q best
  let bnds := updateBounds m q lo hi (decide (s < t))
  ⟨lo, hi, q, isFinal, s, best, best2, bnds.1, bnds.2⟩

/-- Result of the WebP variant's search loop.  `err` is a codec failure
(encode, decode-back, or grayscale conversion), which aborts the run with
exit code 1; `done` carries the completed iteration trace, the final state
and the final trial quality, whose encoded bytes are what the program
writes. -/
inductive WebpLoopRes
  | err (iters : List Iter) (cycles : ℕ)
  | done (iters : List Iter) (lo hi : ℕ) (best : Option (ℕ × ℚ)) (lastQ : ℕ)
  deriving DecidableEq, Repr

/-- External collaborators of `src/archive2webp.c` (libwebp encode/decode,
grayscale conversion, the iqa/smallfry metrics), modelled as deterministic
functions of the trial quality as the spec's §4.3 prescribes. -/
structure WebpCodec where
  encOk : ℕ → Bool
  decOk : ℕ → Bool
  grayOk : ℕ → Bool
  score : ℕ → ℚ
  enc : ℕ → List ℕ

/-- One pass of the WebP loop body up to the bound/best updates
(`src/archive2webp.c` lines 425-493): encode at the midpoint quality, decode
the result back, convert to grayscale, score; `none` on any codec failure. -/
def webpStep (k : WebpCodec) (m : Method) (t : ℚ) (isFinal : Bool)
    (lo hi : ℕ) (best : Option (ℕ × ℚ)) : Option Iter :=
  let q := midpoint lo hi
  if !k.encOk q then none
  else if !k.decOk q then none
  else if !k.grayOk q then none
  else some (iterCore m t isFinal lo hi best (k.score q))

/-- The bisection loop of `src/archive2webp.c` lines 414-528, as structural
recursion on the `attempt` counter.  A non-zero `attempt` that triggers the
early-termination test behaves exactly like the C code's `attempt = 0`
assignment: the iteration becomes the final one and the loop exits after
it. -/
def webpGo (k : WebpCodec) (m : Method) (t : ℚ) :
    ℕ → ℕ → ℕ → Option (ℕ × ℚ) → List Iter → WebpLoopRes
  | 0, lo, hi, best, acc =>
    match webpStep k m t true lo hi best with
    | none => .err acc (acc.length + 1)
    | some it => .done (acc ++ [it]) it.loNext it.hiNext it.bestAfter it.quality
  | n + 1, lo, hi, best, acc =>
    match webpStep k m t (earlyStop (midpoint lo hi) lo hi best) lo hi best with
    | none => .err acc (acc.length + 1)
    | some it =>
      if earlyStop (midpoint lo hi) lo hi best then
        .done (acc ++ [it]) it.loNext it.hiNext it.bestAfter it.quality
      else webpGo k m t n it.loNext it.hiNext it.bestAfter (acc ++ [it])

/-- Entry into the WebP loop (`for (attempt = attempts - 1; attempt >= 0; ...)`):
with a zero attempt budget the loop body never runs. -/
def webpSearch (k : WebpCodec) (m : Method) (t : ℚ) (qMin qMax attempts : ℕ) :
    Option WebpLoopRes :=
  match attempts with
  | 0 => none
  | n + 1 => some (webpGo k m t n qMin qMax none [])

end A2W

namespace A2W

/-- Preset target table of `setTargetFromPreset` in `src/jpeg-recompress.c`
lines 127-194 (float literals modelled as exact rationals). -/
def presetTargetJ : Method → Preset → ℚ
  | .ssim, .low => 0.999
  | .ssim, .medium => 0.9999
  | .ssim, .high => 0.99995
  | .ssim, .veryhigh => 0.99999
  | .msSsim, .low => 0.85
  | .msSsim, .medium => 0.94
  | .msSsim, .high => 0.96
  | .msSsim, .veryhigh => 0.98
  | .smallfry, .low => 100.75
  | .smallfry, .medium => 102.25
  | .smallfry, .high => 103.8
  | .smallfry, .veryhigh => 105.5
  | .mpe, .low => 1.5
  | .mpe, .medium => 1.0
  | .mpe, .high => 0.8
  | .mpe, .veryhigh => 0.6

/-- Preset target table of `setTargetFromPreset` in `src/archive2webp.c`
lines 114-181; only the SSIM row differs from the re-encode variant. -/
def presetTargetW : Method → Preset → ℚ
  | .ssim, .low => 0.995
  | .ssim, .medium => 0.999
  | .ssim, .high => 0.9995
  | .ssim, .veryhigh => 0.9999
  | .msSsim, .low => 0.85
  | .msSsim, .medium => 0.94
  | .msSsim, .high => 0.96
  | .msSsim, .veryhigh => 0.98
  | .smallfry, .low => 100.75
  | .smallfry, .medium => 102.25
  | .smallfry, .high => 103.8
  | .smallfry, .veryhigh => 105.5
  | .mpe, .low => 1.5
  | .mpe, .medium => 1.0
  | .mpe, .high => 0.8
  | .mpe, .veryhigh => 0.6

/-- Effective search target of the re-encode variant: `if (!target)
setTargetFromPreset();` (`src/jpeg-recompress.c` lines 379-382) — a parsed
target of 0 (absent flag, explicit "0", or a string `atof` maps to 0) is
replaced by the preset value. -/
def effTargetJ (targetArg : ℚ) (m : Method) (p : Preset) : ℚ :=
  if targetArg = 0 then presetTargetJ m p else targetArg

/-- Effective search target of the conversion variant (`src/archive2webp.c`
lines 311-314). -/
def effTargetW (targetArg : ℚ) (m : Method) (p : Preset) : ℚ :=
  if targetArg = 0 then presetTargetW m p else targetArg

/-- Result of the re-encode variant's search loop.  `codecFail`: decoding a
just-encoded candidate failed (exit 1).  `guardHit`: an iteration scored
below target while `totalSize + minDelta ≥ bufSize` — the in-loop size guard
fired (`src/jpeg-recompress.c` lines 552-573).  `done` carries the completed
iteration trace, final state and final trial quality. -/
inductive JpegLoopRes
  | codecFail (iters : List Iter) (cycles : ℕ)
  | guardHit (iters : List Iter) (cycles : ℕ)
  | done (iters : List Iter) (lo hi : ℕ) (best : Option (ℕ × ℚ)) (lastQ : ℕ)
  deriving DecidableEq, Repr

/-- External collaborators of `src/jpeg-recompress.c` (libjpeg, iqa,
smallfry), modelled as deterministic functions of the trial quality and of
the `progressive` / `optimize` encoder flags. -/
structure JpegCodec where
  enc : ℕ → Bool → Bool → List ℕ
  decOk : ℕ → Bool → Bool → Bool
  score : ℕ → Bool → Bool → ℚ

/-- Outcome of one pass of the re-encode loop body. -/
inductive JStep
  | fail
  | guard
  | ok (it : Iter)
  deriving DecidableEq, Repr

/-- One pass of the re-encode loop body (`src/jpeg-recompress.c` lines
482-544 and the guard test at lines 552-554): encode at the midpoint quality
(with `progressive`/`optimize` flags depending on whether this is the final
iteration and on the `accurate` flag), decode the result back, score it,
then — before any bound update — test the in-loop size guard, which fires
only when the score falls below target. -/
def jpegStep (k : JpegCodec) (m : Method) (t : ℚ) (noProg accurate : Bool)
    (metaSz bufSz : ℕ) (isFinal : Bool) (lo hi : ℕ) (best : Option (ℕ × ℚ)) : JStep :=
  let q := midpoint lo hi
  let prog := isFinal && !noProg
  let opt := accurate || isFinal
  let size := (k.enc q prog opt).length
  if !k.decOk q prog opt then .fail
  else
    let s := k.score q prog opt
    if decide (s < t) && decide (bufSz ≤ size + metaSizeCOM + metaSz + minDelta) then .guard
    else .ok (iterCore m t isFinal lo hi best s)

/-- The bisection loop of `src/jpeg-recompress.c` lines 481-598.  On the
final iteration (`attempt == 0`, possibly forced by the early-termination
test) the encoder runs with `progressive = !noProgressive` and
`optimize = 1`; exploratory iterations use `progressive = 0` and
`optimize = accurate`.  The size guard runs inside the loop, only on
iterations whose score falls below target, before the bound update. -/
def jpegGo (k : JpegCodec) (m : Method) (t : ℚ) (noProg accurate : Bool)
    (metaSz bufSz : ℕ) :
    ℕ → ℕ → ℕ → Option (ℕ × ℚ) → List Iter → JpegLoopRes
  | 0, lo, hi, best, acc =>
    match jpegStep k m t noProg accurate metaSz bufSz true lo hi best with
    | .fail => .codecFail acc (acc.length + 1)
    | .guard => .guardHit acc (acc.length + 1)
    | .ok it => .done (acc ++ [it]) it.loNext it.hiNext it.bestAfter it.quality
  | n + 1, lo, hi, best, acc =>
    match jpegStep k m t noProg accurate metaSz bufSz
        (earlyStop (midpoint lo hi) lo hi best) lo hi best with
    | .fail => .codecFail acc (acc.length + 1)
    | .guard => .guardHit acc (acc.length + 1)
    | .ok it =>
      if earlyStop (midpoint lo hi) lo hi best then
        .done (acc ++ [it]) it.loNext it.hiNext it.bestAfter it.quality
      else jpegGo k m t noProg accurate metaSz bufSz n it.loNext it.hiNext it.bestAfter
        (acc ++ [it])

/-- Entry into the re-encode variant's loop; a zero attempt budget skips the
loop entirely. -/
def jpegSearch (k : JpegCodec) (m : Method) (t : ℚ) (noProg accurate : Bool)
    (metaSz bufSz qMin qMax attempts : ℕ) : Option JpegLoopRes :=
  match attempts with
  | 0 => none
  | n + 1 => some (jpegGo k m t noProg accurate metaSz bufSz n qMin qMax none [])

/-- Run configuration of `jpeg-recompress` after command-line parsing
(globals in `src/jpeg-recompress.c` lines 46-89). -/
structure JpegCfg where
  method : Method
  targetArg : ℚ
  preset : Preset
  qMin : ℕ
  qMax : ℕ
  attempts : ℕ
  strip : Bool
  noProgressive : Bool
  copyFiles : Bool
  accurate : Bool
  inputFiletype : Filetype
  deriving DecidableEq, Repr

/-- The metadata step of `jpeg-recompress`'s `main` (`src/jpeg-recompress.c`
lines 441-461): the signature scan / metadata extraction runs only when the
input is (detected as) JPEG. -/
def metaStep (cfg : JpegCfg) (buf : List ℕ) : Option (List ℕ) :=
  if effFiletype cfg.inputFiletype buf = .jpeg then getMeta buf else some []

/-- Preserved metadata after the strip flag (`src/jpeg-recompress.c` lines
463-472): stripping pretends there is no metadata. -/
def jpegMeta (cfg : JpegCfg) (metaRaw : List ℕ) : List ℕ :=
  if cfg.strip then [] else metaRaw

/-- The search-loop call of `jpeg-recompress`'s `main` with the arguments it
receives there. -/
def jpegSearchOf (cfg : JpegCfg) (k : JpegCodec) (meta buf : List ℕ) :
    Option JpegLoopRes :=
  jpegSearch k cfg.method (effTargetJ cfg.targetArg cfg.method cfg.preset)
    cfg.noProgressive cfg.accurate meta.length buf.length cfg.qMin cfg.qMax cfg.attempts

/-- The final candidate bytes: the loop's last iteration runs the encoder
with `progressive = !noProgressive` and `optimize = 1`
(`src/jpeg-recompress.c` lines 493-494 with `attempt == 0`). -/
def jpegFinalC (cfg : JpegCfg) (k : JpegCodec) (lastQ : ℕ) : List ℕ :=
  k.enc lastQ (!cfg.noProgressive) true

/-- One run of `jpeg-recompress`'s `main` from validation through the final
write (`src/jpeg-recompress.c` lines 363-727).  `decodeOrigOk` stands for
successful decode of the input (plus the grayscale conversion); output I/O
is assumed writable (file writing is an external collaborator per spec §1).
With a zero attempt budget `compressed` stays `NULL`, the post-loop size
check `0 ≥ bufSize` fails for a non-empty input, and the SOI check on the
null buffer rejects the run (exit 1). -/
def runJpeg (cfg : JpegCfg) (k : JpegCodec) (decodeOrigOk : Bool) (buf : List ℕ) :
    RunRes :=
  if cfg.qMax < cfg.qMin then .failed 1
  else if buf = [] then .failed 1
  else if !decodeOrigOk then .failed 1
  else
    match metaStep cfg buf with
    | none => if cfg.copyFiles then .wrote 0 buf else .failed 2
    | some metaRaw =>
      let meta := jpegMeta cfg metaRaw
      match jpegSearchOf cfg k meta buf with
      | none => .failed 1
      | some (.codecFail _ _) => .failed 1
      | some (.guardHit _ _) => if cfg.copyFiles then .wrote 0 buf else .failed 1
      | some (.done _ _ _ _ lastQ) =>
        let c := jpegFinalC cfg k lastQ
        if buf.length ≤ c.length + metaSizeCOM + meta.length then .wrote 1 buf
        else if !structOk c then .failed 1
        else .wrote 0 (assembleOutput c meta)

/-- Run configuration of `archive2webp` after command-line parsing
(globals in `src/archive2webp.c` lines 48-76). -/
structure WebpCfg where
  method : Method
  targetArg : ℚ
  preset : Preset
  qMin : ℕ
  qMax : ℕ
  attempts : ℕ
  inputFiletype : Filetype
  deriving DecidableEq, Repr

/-- The search-loop call of `archive2webp`'s `main` with the arguments it
receives there. -/
def webpSearchOf (cfg : WebpCfg) (k : WebpCodec) : Option WebpLoopRes :=
  webpSearch k cfg.method (effTargetW cfg.targetArg cfg.method cfg.preset)
    cfg.qMin cfg.qMax cfg.attempts

/-- One run of `archive2webp`'s `main` from validation through the final
write (`src/archive2webp.c` lines 295-567).  `initOk` covers the WebP
config/picture initialization, `decodeOrigOk` the input decode,
`importGrayOk` the RGB import and the original's grayscale conversion.
The winner — the final iteration's encoded buffer — is written
unconditionally: there is no size check in this variant.  With a zero
attempt budget the memory writer holds zero bytes and `fwrite` of an empty
buffer returns 0, taking the write-error path (exit 1). -/
def runWebp (cfg : WebpCfg) (k : WebpCodec) (initOk decodeOrigOk importGrayOk : Bool)
    (buf : List ℕ) : RunRes :=
  if cfg.qMax < cfg.qMin then .failed 1
  else if !initOk then .failed 1
  else if buf = [] then .failed 1
  else if !decodeOrigOk then .failed 1
  else if !importGrayOk then .failed 1
  else
    match webpSearchOf cfg k with
    | none => .failed 1
    | some (.err _ _) => .failed 1
    | some (.done _ _ _ _ lastQ) => .wrote 0 (k.enc lastQ)

end A2W

namespace A2W

/-- Completed iterations recorded by the WebP loop. -/
def itersOfW : Option WebpLoopRes → List Iter
  | none => []
  | some (.err its _) => its
  | some (.done its _ _ _ _) => its

/-- Number of encode/decode/score cycles performed by the WebP loop
(partial cycles that abort mid-iteration count as one). -/
def cyclesOfW : Option WebpLoopRes → ℕ
  | none => 0
  | some (.err _ cy) => cy
  | some (.done its _ _ _ _) => its.length

/-- Completed iterations recorded by the re-encode loop. -/
def itersOfJ : Option JpegLoopRes → List Iter
  | none => []
  | some (.codecFail its _) => its
  | some (.guardHit its _) => its
  | some (.done its _ _ _ _) => its

/-- Number of encode/decode/score cycles performed by the re-encode loop
(a cycle cut short by a codec failure or by the size guard counts as one). -/
def cyclesOfJ : Option JpegLoopRes → ℕ
  | none => 0
  | some (.codecFail _ cy) => cy
  | some (.guardHit _ cy) => cy
  | some (.done its _ _ _ _) => its.length

/-- The quality level of the loop's final iteration — the one whose encoded
bytes the program goes on to emit. -/
def lastQOfW : Option WebpLoopRes → Option ℕ
  | some (.done _ _ _ _ lastQ) => some lastQ
  | _ => none

/-- `bestQuality` at the end of the WebP loop. -/
def bestQualOfW : Option WebpLoopRes → Option ℕ
  | some (.done _ _ _ best _) => bestQual best
  | _ => none

/-- One recorded iteration is exactly one pass of the C loop body: midpoint
quality, strict-improvement best update, polarity-driven bound update. -/
def IterStep (m : Method) (t : ℚ) (it : Iter) : Prop :=
  it.quality = midpoint it.lo it.hi ∧
  it.bestAfter = updBest t it.score it.quality it.bestBefore ∧
  (it.loNext, it.hiNext) = updateBounds m it.quality it.lo it.hi (decide (it.score < t))

/-- `TraceFrom m t lo hi best l`: the records `l` form a run of consecutive
loop iterations starting from bounds `lo ≤ hi` and best state `best`, each
satisfying `IterStep` and each starting where its predecessor ended. -/
inductive TraceFrom (m : Method) (t : ℚ) :
    ℕ → ℕ → Option (ℕ × ℚ) → List Iter → Prop
  | nil (lo hi : ℕ) (best : Option (ℕ × ℚ)) : TraceFrom m t lo hi best []
  | cons (it : Iter) (rest : List Iter)
      (hstep : IterStep m t it)
      (hrest : TraceFrom m t it.loNext it.hiNext it.bestAfter rest) :
      TraceFrom m t it.lo it.hi it.bestBefore (it :: rest)

theorem iterCore_step (m : Method) (t : ℚ) (f : Bool) (lo hi : ℕ)
    (best : Option (ℕ × ℚ)) (s : ℚ) : IterStep m t (iterCore m t f lo hi best s) := by
  refine ⟨rfl, rfl, ?_⟩
  simp [iterCore]

theorem updateBounds_le (m : Method) (q lo hi : ℕ) (b : Bool) :
    (updateBounds m q lo hi b).1 ≤ (updateBounds m q lo hi b).2 := by
  unfold updateBounds
  rcases b <;> rcases higherBetter m <;> simp

theorem updBest_diff_le (t s : ℚ) (q : ℕ) (best : Option (ℕ × ℚ)) :
    bestDiffT (updBest t s q best) ≤ bestDiffT best := by
  rcases best with _ | ⟨bq, bd⟩
  · simp [updBest, bestDiffT]
  · by_cases h : |t - s| < bd
    · simp only [updBest, bestDiffT, if_pos h]
      exact_mod_cast le_of_lt h
    · simp only [updBest, bestDiffT, if_neg h]
      exact le_refl _

theorem updBest_lt_eq (t s : ℚ) (q : ℕ) (best : Option (ℕ × ℚ))
    (h : ((|t - s| : ℚ) : WithTop ℚ) < bestDiffT best) :
    updBest t s q best = some (q, |t - s|) := by
  rcases best with _ | ⟨bq, bd⟩
  · simp [updBest]
  · have hlt : |t - s| < bd := by
      have := h
      simp only [bestDiffT] at this
      exact_mod_cast this
    simp [updBest, hlt]

theorem updBest_ge_eq (t s : ℚ) (q : ℕ) (best : Option (ℕ × ℚ))
    (h : bestDiffT best ≤ ((|t - s| : ℚ) : WithTop ℚ)) :
    updBest t s q best = best := by
  rcases best with _ | ⟨bq, bd⟩
  · exact absurd h (by simp [bestDiffT])
  · have hge : ¬ |t - s| < bd := by
      simp only [bestDiffT] at h
      have hbd : bd ≤ |t - s| := by exact_mod_cast h
      exact not_lt_of_le hbd
    simp [updBest, hge]

theorem updBest_quality_of_ne (t s : ℚ) (q : ℕ) (best : Option (ℕ × ℚ))
    (h : updBest t s q best ≠ best) :
    bestQual (updBest t s q best) = some q := by
  rcases best with _ | ⟨bq, bd⟩
  · simp [updBest, bestQual]
  · by_cases hlt : |t - s| < bd
    · simp [updBest, hlt, bestQual]
    · exact absurd (by simp [updBest, hlt]) h

theorem updBest_quality_stable (t s : ℚ) (q : ℕ) (best : Option (ℕ × ℚ))
    (h : bestQual best = some q) :
    bestQual (updBest t s q best) = some q := by
  rcases best with _ | ⟨bq, bd⟩
  · simp [bestQual] at h
  · simp only [bestQual, Option.map_some, Option.some.injEq] at h
    by_cases hlt : |t - s| < bd <;> simp [updBest, hlt, bestQual, h]

end A2W

namespace A2W

theorem webpStep_some {k : WebpCodec} {m : Method} {t : ℚ} {f : Bool} {lo hi : ℕ}
    {best : Option (ℕ × ℚ)} {it : Iter}
    (h : webpStep k m t f lo hi best = some it) :
    it = iterCore m t f lo hi best (k.score (midpoint lo hi)) := by
  simp only [webpStep] at h
  split_ifs at h <;> simp_all

theorem jpegStep_ok {k : JpegCodec} {m : Method} {t : ℚ} {noProg accurate : Bool}
    {metaSz bufSz : ℕ} {f : Bool} {lo hi : ℕ} {best : Option (ℕ × ℚ)} {it : Iter}
    (h : jpegStep k m t noProg accurate metaSz bufSz f lo hi best = .ok it) :
    it = iterCore m t f lo hi best
      (k.score (midpoint lo hi) (f && !noProg) (accurate || f)) := by
  simp only [jpegStep] at h
  split_ifs at h <;> simp_all

theorem webpGo_iters (k : WebpCodec) (m : Method) (t : ℚ) :
    ∀ (n lo hi : ℕ) (best : Option (ℕ × ℚ)) (acc : List Iter),
      ∃ tl, itersOfW (some (webpGo k m t n lo hi best acc)) = acc ++ tl ∧
        TraceFrom m t lo hi best tl := by
  intro n
  induction n with
  | zero =>
    intro lo hi best acc
    cases hst : webpStep k m t true lo hi best with
    | none => exact ⟨[], by simp [webpGo, hst, itersOfW], TraceFrom.nil lo hi best⟩
    | some it =>
      refine ⟨[it], by simp [webpGo, hst, itersOfW], ?_⟩
      rw [webpStep_some hst]
      exact TraceFrom.cons _ [] (iterCore_step _ _ _ _ _ _ _) (TraceFrom.nil _ _ _)
  | succ n ih =>
    intro lo hi best acc
    cases hf : earlyStop (midpoint lo hi) lo hi best with
    | true =>
      cases hst : webpStep k m t true lo hi best with
      | none => exact ⟨[], by simp [webpGo, hf, hst, itersOfW], TraceFrom.nil lo hi best⟩
      | some it =>
        refine ⟨[it], by simp [webpGo, hf, hst, itersOfW], ?_⟩
        rw [webpStep_some hst]
        exact TraceFrom.cons _ [] (iterCore_step _ _ _ _ _ _ _) (TraceFrom.nil _ _ _)
    | false =>
      cases hst : webpStep k m t false lo hi best with
      | none => exact ⟨[], by simp [webpGo, hf, hst, itersOfW], TraceFrom.nil lo hi best⟩
      | some it =>
        obtain ⟨tl, htl, htr⟩ := ih it.loNext it.hiNext it.bestAfter (acc ++ [it])
        refine ⟨it :: tl, ?_, ?_⟩
        · rw [show webpGo k m t (n + 1) lo hi best acc
              = webpGo k m t n it.loNext it.hiNext it.bestAfter (acc ++ [it]) by
            simp [webpGo, hf, hst]]
          rw [htl, List.append_assoc]
          rfl
        · rw [webpStep_some hst] at htr ⊢
          exact TraceFrom.cons _ tl (iterCore_step _ _ _ _ _ _ _) htr

theorem jpegGo_iters (k : JpegCodec) (m : Method) (t : ℚ) (noProg accurate : Bool)
    (metaSz bufSz : ℕ) :
    ∀ (n lo hi : ℕ) (best : Option (ℕ × ℚ)) (acc : List Iter),
      ∃ tl, itersOfJ (some (jpegGo k m t noProg accurate metaSz bufSz n lo hi best acc))
          = acc ++ tl ∧ TraceFrom m t lo hi best tl := by
  intro n
  induction n with
  | zero =>
    intro lo hi best acc
    cases hst : jpegStep k m t noProg accurate metaSz bufSz true lo hi best with
    | fail => exact ⟨[], by simp [jpegGo, hst, itersOfJ], TraceFrom.nil lo hi best⟩
    | guard => exact ⟨[], by simp [jpegGo, hst, itersOfJ], TraceFrom.nil lo hi best⟩
    | ok it =>
      refine ⟨[it], by simp [jpegGo, hst, itersOfJ], ?_⟩
      rw [jpegStep_ok hst]
      exact TraceFrom.cons _ [] (iterCore_step _ _ _ _ _ _ _) (TraceFrom.nil _ _ _)
  | succ n ih =>
    intro lo hi best acc
    cases hf : earlyStop (midpoint lo hi) lo hi best with
    | true =>
      cases hst : jpegStep k m t noProg accurate metaSz bufSz true lo hi best with
      | fail => exact ⟨[], by simp [jpegGo, hf, hst, itersOfJ], TraceFrom.nil lo hi best⟩
      | guard => exact ⟨[], by simp [jpegGo, hf, hst, itersOfJ], TraceFrom.nil lo hi best⟩
      | ok it =>
        refine ⟨[it], by simp [jpegGo, hf, hst, itersOfJ], ?_⟩
        rw [jpegStep_ok hst]
        exact TraceFrom.cons _ [] (iterCore_step _ _ _ _ _ _ _) (TraceFrom.nil _ _ _)
    | false =>
      cases hst : jpegStep k m t noProg accurate metaSz bufSz false lo hi best with
      | fail => exact ⟨[], by simp [jpegGo, hf, hst, itersOfJ], TraceFrom.nil lo hi best⟩
      | guard => exact ⟨[], by simp [jpegGo, hf, hst, itersOfJ], TraceFrom.nil lo hi best⟩
      | ok it =>
        obtain ⟨tl, htl, htr⟩ := ih it.loNext it.hiNext it.bestAfter (acc ++ [it])
        refine ⟨it :: tl, ?_, ?_⟩
        · rw [show jpegGo k m t noProg accurate metaSz bufSz (n + 1) lo hi best acc
              = jpegGo k m t noProg accurate metaSz bufSz n it.loNext it.hiNext
                  it.bestAfter (acc ++ [it]) by
            simp [jpegGo, hf, hst]]
          rw [htl, List.append_assoc]
          rfl
        · rw [jpegStep_ok hst] at htr ⊢
          exact TraceFrom.cons _ tl (iterCore_step _ _ _ _ _ _ _) htr

end A2W

namespace A2W

theorem IterStep.next_le {m : Method} {t : ℚ} {it : Iter} (h : IterStep m t it) :
    it.loNext ≤ it.hiNext := by
  have hub := updateBounds_le m it.quality it.lo it.hi (decide (it.score < t))
  rw [← h.2.2] at hub
  exact hub

theorem IterStep.diff_le {m : Method} {t : ℚ} {it : Iter} (h : IterStep m t it) :
    bestDiffT it.bestAfter ≤ bestDiffT it.bestBefore := by
  rw [h.2.1]
  exact updBest_diff_le t it.score it.quality it.bestBefore

theorem trace_istep {m : Method} {t : ℚ} {lo hi : ℕ} {best : Option (ℕ × ℚ)}
    {l : List Iter} (h : TraceFrom m t lo hi best l) :
    ∀ it ∈ l, IterStep m t it := by
  induction h with
  | nil => simp
  | cons it rest hstep hrest ih =>
    intro x hx
    rcases List.mem_cons.mp hx with rfl | hx
    · exact hstep
    · exact ih x hx

theorem trace_bounds {m : Method} {t : ℚ} {lo hi : ℕ} {best : Option (ℕ × ℚ)}
    {l : List Iter} (h : TraceFrom m t lo hi best l) (hlh : lo ≤ hi) :
    ∀ it ∈ l, it.lo ≤ it.hi ∧ it.loNext ≤ it.hiNext := by
  induction h with
  | nil => simp
  | cons it rest hstep hrest ih =>
    intro x hx
    rcases List.mem_cons.mp hx with rfl | hx
    · exact ⟨hlh, hstep.next_le⟩
    · exact ih hstep.next_le x hx

theorem trace_diff_from {m : Method} {t : ℚ} {lo hi : ℕ} {best : Option (ℕ × ℚ)}
    {l : List Iter} (h : TraceFrom m t lo hi best l) :
    ∀ it ∈ l, bestDiffT it.bestBefore ≤ bestDiffT best ∧
      bestDiffT it.bestAfter ≤ bestDiffT best := by
  induction h with
  | nil => simp
  | cons it rest hstep hrest ih =>
    intro x hx
    rcases List.mem_cons.mp hx with rfl | hx
    · exact ⟨le_refl _, hstep.diff_le⟩
    · obtain ⟨h1, h2⟩ := ih x hx
      exact ⟨h1.trans hstep.diff_le, h2.trans hstep.diff_le⟩

theorem trace_diff_pair {m : Method} {t : ℚ} {lo hi : ℕ} {best : Option (ℕ × ℚ)}
    {l : List Iter} (h : TraceFrom m t lo hi best l) :
    ∀ (i j : ℕ) (hi2 : i < l.length) (hj : j < l.length), i ≤ j →
      bestDiffT (l.get ⟨j, hj⟩).bestAfter ≤ bestDiffT (l.get ⟨i, hi2⟩).bestAfter := by
  induction h with
  | nil => intro i j hi2; simp at hi2
  | cons it rest hstep hrest ih =>
    intro i j hi2 hj hij
    cases i with
    | zero =>
      cases j with
      | zero => exact le_refl _
      | succ j =>
        simp only [List.get_cons_succ, List.get_cons_zero]
        have hmem : rest.get ⟨j, by simpa using hj⟩ ∈ rest := List.get_mem rest _ _
        exact (trace_diff_from hrest _ hmem).2
    | succ i =>
      cases j with
      | zero => omega
      | succ j =>
        simp only [List.get_cons_succ]
        exact ih i j (by simpa using hi2) (by simpa using hj) (by omega)

end A2W

namespace A2W

theorem webpGo_done (k : WebpCodec) (m : Method) (t : ℚ) :
    ∀ (n lo hi : ℕ) (best : Option (ℕ × ℚ)) (acc : List Iter)
      (its : List Iter) (flo fhi : ℕ) (fbest : Option (ℕ × ℚ)) (lastQ : ℕ),
      webpGo k m t n lo hi best acc = .done its flo fhi fbest lastQ →
      ∃ it, its.getLast? = some it ∧ it ∈ its ∧ lastQ = it.quality ∧
        fbest = it.bestAfter ∧ it.isFinal = true := by
  intro n
  induction n with
  | zero =>
    intro lo hi best acc its flo fhi fbest lastQ hdone
    cases hst : webpStep k m t true lo hi best with
    | none => simp [webpGo, hst] at hdone
    | some it =>
      simp only [webpGo, hst] at hdone
      obtain ⟨h1, _, _, h4, h5⟩ := WebpLoopRes.done.inj hdone
      refine ⟨it, ?_, ?_, h5.symm, h4.symm, ?_⟩
      · rw [← h1]; exact List.getLast?_concat _
      · rw [← h1]; simp
      · rw [webpStep_some hst]; rfl
  | succ n ih =>
    intro lo hi best acc its flo fhi fbest lastQ hdone
    cases hf : earlyStop (midpoint lo hi) lo hi best with
    | true =>
      cases hst : webpStep k m t true lo hi best with
      | none => simp [webpGo, hf, hst] at hdone
      | some it =>
        simp only [webpGo, hf, hst, if_pos] at hdone
        obtain ⟨h1, _, _, h4, h5⟩ := WebpLoopRes.done.inj hdone
        refine ⟨it, ?_, ?_, h5.symm, h4.symm, ?_⟩
        · rw [← h1]; exact List.getLast?_concat _
        · rw [← h1]; simp
        · rw [webpStep_some hst]; rfl
    | false =>
      cases hst : webpStep k m t false lo hi best with
      | none => simp [webpGo, hf, hst] at hdone
      | some it =>
        have hrec : webpGo k m t (n + 1) lo hi best acc
            = webpGo k m t n it.loNext it.hiNext it.bestAfter (acc ++ [it]) := by
          simp [webpGo, hf, hst]
        rw [hrec] at hdone
        exact ih _ _ _ _ _ _ _ _ _ hdone

theorem jpegGo_done (k : JpegCodec) (m : Method) (t : ℚ) (noProg accurate : Bool)
    (metaSz bufSz : ℕ) :
    ∀ (n lo hi : ℕ) (best : Option (ℕ × ℚ)) (acc : List Iter)
      (its : List Iter) (flo fhi : ℕ) (fbest : Option (ℕ × ℚ)) (lastQ : ℕ),
      jpegGo k m t noProg accurate metaSz bufSz n lo hi best acc
        = .done its flo fhi fbest lastQ →
      ∃ it, its.getLast? = some it ∧ it ∈ its ∧ lastQ = it.quality ∧
        fbest = it.bestAfter ∧ it.isFinal = true := by
  intro n
  induction n with
  | zero =>
    intro lo hi best acc its flo fhi fbest lastQ hdone
    cases hst : jpegStep k m t noProg accurate metaSz bufSz true lo hi best with
    | fail => simp [jpegGo, hst] at hdone
    | guard => simp [jpegGo, hst] at hdone
    | ok it =>
      simp only [jpegGo, hst] at hdone
      obtain ⟨h1, _, _, h4, h5⟩ := JpegLoopRes.done.inj hdone
      refine ⟨it, ?_, ?_, h5.symm, h4.symm, ?_⟩
      · rw [← h1]; exact List.getLast?_concat _
      · rw [← h1]; simp
      · rw [jpegStep_ok hst]; rfl
  | succ n ih =>
    intro lo hi best acc its flo fhi fbest lastQ hdone
    cases hf : earlyStop (midpoint lo hi) lo hi best with
    | true =>
      cases hst : jpegStep k m t noProg accurate metaSz bufSz true lo hi best with
      | fail => simp [jpegGo, hf, hst] at hdone
      | guard => simp [jpegGo, hf, hst] at hdone
      | ok it =>
        simp only [jpegGo, hf, hst, if_pos] at hdone
        obtain ⟨h1, _, _, h4, h5⟩ := JpegLoopRes.done.inj hdone
        refine ⟨it, ?_, ?_, h5.symm, h4.symm, ?_⟩
        · rw [← h1]; exact List.getLast?_concat _
        · rw [← h1]; simp
        · rw [jpegStep_ok hst]; rfl
    | false =>
      cases hst : jpegStep k m t noProg accurate metaSz bufSz false lo hi best with
      | fail => simp [jpegGo, hf, hst] at hdone
      | guard => simp [jpegGo, hf, hst] at hdone
      | ok it =>
        have hrec : jpegGo k m t noProg accurate metaSz bufSz (n + 1) lo hi best acc
            = jpegGo k m t noProg accurate metaSz bufSz n it.loNext it.hiNext
                it.bestAfter (acc ++ [it]) := by
          simp [jpegGo, hf, hst]
        rw [hrec] at hdone
        exact ih _ _ _ _ _ _ _ _ _ hdone

theorem webpGo_cycles (k : WebpCodec) (m : Method) (t : ℚ) :
    ∀ (n lo hi : ℕ) (best : Option (ℕ × ℚ)) (acc : List Iter),
      cyclesOfW (some (webpGo k m t n lo hi best acc)) ≤ acc.length + n + 1 := by
  intro n
  induction n with
  | zero =>
    intro lo hi best acc
    cases hst : webpStep k m t true lo hi best <;> simp [webpGo, hst, cyclesOfW]
  | succ n ih =>
    intro lo hi best acc
    cases hf : earlyStop (midpoint lo hi) lo hi best with
    | true =>
      cases hst : webpStep k m t true lo hi best <;>
        simp [webpGo, hf, hst, cyclesOfW]
    | false =>
      cases hst : webpStep k m t false lo hi best with
      | none => simp [webpGo, hf, hst, cyclesOfW]
      | some it =>
        have hrec : webpGo k m t (n + 1) lo hi best acc
            = webpGo k m t n it.loNext it.hiNext it.bestAfter (acc ++ [it]) := by
          simp [webpGo, hf, hst]
        rw [hrec]
        have := ih it.loNext it.hiNext it.bestAfter (acc ++ [it])
        simp only [List.length_append, List.length_singleton] at this
        omega

theorem jpegGo_cycles (k : JpegCodec) (m : Method) (t : ℚ) (noProg accurate : Bool)
    (metaSz bufSz : ℕ) :
    ∀ (n lo hi : ℕ) (best : Option (ℕ × ℚ)) (acc : List Iter),
      cyclesOfJ (some (jpegGo k m t noProg accurate metaSz bufSz n lo hi best acc))
        ≤ acc.length + n + 1 := by
  intro n
  induction n with
  | zero =>
    intro lo hi best acc
    cases hst : jpegStep k m t noProg accurate metaSz bufSz true lo hi best <;>
      simp [jpegGo, hst, cyclesOfJ]
  | succ n ih =>
    intro lo hi best acc
    cases hf : earlyStop (midpoint lo hi) lo hi best with
    | true =>
      cases hst : jpegStep k m t noProg accurate metaSz bufSz true lo hi best <;>
        simp [jpegGo, hf, hst, cyclesOfJ]
    | false =>
      cases hst : jpegStep k m t noProg accurate metaSz bufSz false lo hi best with
      | fail => simp [jpegGo, hf, hst, cyclesOfJ]
      | guard => simp [jpegGo, hf, hst, cyclesOfJ]
      | ok it =>
        have hrec : jpegGo k m t noProg accurate metaSz bufSz (n + 1) lo hi best acc
            = jpegGo k m t noProg accurate metaSz bufSz n it.loNext it.hiNext
                it.bestAfter (acc ++ [it]) := by
          simp [jpegGo, hf, hst]
        rw [hrec]
        have := ih it.loNext it.hiNext it.bestAfter (acc ++ [it])
        simp only [List.length_append, List.length_singleton] at this
        omega

theorem webpGo_single (k : WebpCodec) (m : Method) (t : ℚ)
    (n lo : ℕ) (best : Option (ℕ × ℚ)) (acc : List Iter) :
    cyclesOfW (some (webpGo k m t n lo lo best acc)) = acc.length + 1 := by
  have hf : earlyStop (midpoint lo lo) lo lo best = true := by
    simp [earlyStop]
  cases n with
  | zero =>
    cases hst : webpStep k m t true lo lo best <;> simp [webpGo, hst, cyclesOfW]
  | succ n =>
    cases hst : webpStep k m t true lo lo best <;>
      simp [webpGo, hf, hst, cyclesOfW]

theorem jpegGo_single (k : JpegCodec) (m : Method) (t : ℚ) (noProg accurate : Bool)
    (metaSz bufSz : ℕ) (n lo : ℕ) (best : Option (ℕ × ℚ)) (acc : List Iter) :
    cyclesOfJ (some (jpegGo k m t noProg accurate metaSz bufSz n lo lo best acc))
      = acc.length + 1 := by
  have hf : earlyStop (midpoint lo lo) lo lo best = true := by
    simp [earlyStop]
  cases n with
  | zero =>
    cases hst : jpegStep k m t noProg accurate metaSz bufSz true lo lo best <;>
      simp [jpegGo, hst, cyclesOfJ]
  | succ n =>
    cases hst : jpegStep k m t noProg accurate metaSz bufSz true lo lo best <;>
      simp [jpegGo, hf, hst, cyclesOfJ]

end A2W


namespace A2W

theorem scanSegs_sig (fuel : ℕ) (tl : List ℕ) :
    scanSegs COMMENT (fuel + 1) (sigSegment ++ tl) = none := by
  show scanSegs COMMENT (fuel + 1)
    (255 :: 254 :: 0 :: (COMMENT.length + 2) :: (COMMENT ++ tl)) = none
  simp only [scanSegs]
  rw [if_neg (by norm_num)]
  have hp : (COMMENT ++ tl).take (0 * 256 + (COMMENT.length + 2) - 2) = COMMENT := by
    have h29 : 0 * 256 + (COMMENT.length + 2) - 2 = COMMENT.length := by omega
    rw [h29]
    exact List.take_left _ _
  rw [if_pos ⟨trivial, hp⟩]

theorem scanSegs_skip (fuel m l1 l2 : ℕ) (pre rest2 : List ℕ)
    (hm218 : m ≠ 218) (hm254 : m ≠ 254)
    (hpre : pre.length = l1 * 256 + l2 - 2)
    (h : scanSegs COMMENT fuel rest2 = none) :
    scanSegs COMMENT (fuel + 1) (255 :: m :: l1 :: l2 :: (pre ++ rest2)) = none := by
  simp only [scanSegs]
  rw [if_neg hm218]
  have hno : ¬(m = 254 ∧ (pre ++ rest2).take (l1 * 256 + l2 - 2) = COMMENT) := by
    rintro ⟨hc, -⟩
    exact hm254 hc
  rw [if_neg hno]
  rw [List.drop_left' hpre, h]
  rfl

end A2W

namespace A2W

theorem getMeta_assembled (l1 l2 : ℕ) (body meta : List ℕ)
    (hlen : 2 ≤ l1 * 256 + l2) (hbody : l1 * 256 + l2 - 2 ≤ body.length) :
    getMeta (assembleOutput (255 :: 216 :: 255 :: 224 :: l1 :: l2 :: body) meta) = none := by
  have happ0 : app0LenP4 (255 :: 216 :: 255 :: 224 :: l1 :: l2 :: body)
      = (l1 * 256 + l2 - 2) + 6 := by
    simp [app0LenP4, List.getD]
    omega
  have hout : assembleOutput (255 :: 216 :: 255 :: 224 :: l1 :: l2 :: body) meta
      = 255 :: 216 :: (255 :: 224 :: l1 :: l2 ::
          (body.take (l1 * 256 + l2 - 2)
            ++ (sigSegment ++ (meta ++ body.drop (l1 * 256 + l2 - 2))))) := by
    rw [assembleOutput, happ0]
    simp
  rw [hout]
  have hpre : (body.take (l1 * 256 + l2 - 2)).length = l1 * 256 + l2 - 2 := by
    rw [List.length_take]
    omega
  set rest2 := sigSegment ++ (meta ++ body.drop (l1 * 256 + l2 - 2)) with hrest2
  set inner := 255 :: 224 :: l1 :: l2 :: (body.take (l1 * 256 + l2 - 2) ++ rest2) with hinner
  show getMeta (255 :: 216 :: inner) = none
  have hlen2 : 2 ≤ inner.length := by
    rw [hinner]
    simp
  obtain ⟨f, hf⟩ : ∃ f, inner.length = (f + 1) + 1 := ⟨inner.length - 2, by omega⟩
  show scanSegs COMMENT inner.length inner = none
  rw [hf, hinner]
  refine scanSegs_skip (f + 1) 224 l1 l2 _ rest2 (by norm_num) (by norm_num) hpre ?_
  rw [hrest2]
  exact scanSegs_sig f _

theorem scanSegs_sublist (comment : List ℕ) :
    ∀ (fuel : ℕ) (bytes md : List ℕ),
      scanSegs comment fuel bytes = some md → List.Sublist md bytes := by
  intro fuel
  induction fuel with
  | zero =>
    intro bytes md h
    simp only [scanSegs, Option.some.injEq] at h
    simp [← h]
  | succ fuel ih =>
    intro bytes md h
    rw [scanSegs.eq_def] at h
    split at h
    · omega
    · rename_i fl m l1 l2 rest heq
      have hfl : fl = fuel := by omega
      subst hfl
      by_cases h218 : m = 218
      · rw [if_pos h218] at h
        simp only [Option.some.injEq] at h
        simp [← h]
      · rw [if_neg h218] at h
        by_cases hsig : m = 254 ∧ rest.take (l1 * 256 + l2 - 2) = comment
        · rw [if_pos hsig] at h
          cases h
        · rw [if_neg hsig] at h
          obtain ⟨acc, hacc, hmd⟩ := Option.map_eq_some'.mp h
          have hrec : List.Sublist acc (rest.drop (l1 * 256 + l2 - 2)) := ih _ _ hacc
          by_cases hk : isMetaMarker m = true
          · rw [if_pos hk] at hmd
            rw [← hmd]
            simp only [List.cons_append]
            refine List.Sublist.cons₂ _ (List.Sublist.cons₂ _
              (List.Sublist.cons₂ _ (List.Sublist.cons₂ _ ?_)))
            have hstep : List.Sublist (rest.take (l1 * 256 + l2 - 2) ++ acc)
                (rest.take (l1 * 256 + l2 - 2) ++ rest.drop (l1 * 256 + l2 - 2)) :=
              List.Sublist.append_left hrec _
            rw [List.take_append_drop] at hstep
            exact hstep
          · rw [if_neg hk] at hmd
            rw [← hmd]
            exact ((((hrec.trans (List.drop_sublist _ _)).cons _).cons _).cons _).cons _
    · rename_i hne
      simp only [Option.some.injEq] at h
      simp [← h]

theorem getMeta_sublist (buf md : List ℕ) (h : getMeta buf = some md) :
    List.Sublist md buf := by
  rw [getMeta.eq_def] at h
  split at h
  · rename_i rest
    exact (((scanSegs_sublist COMMENT _ _ _ h).cons _).cons _)
  · simp only [Option.some.injEq] at h
    simp [← h]

end A2W

namespace A2W

/-- Big-step run relation for `jpeg-recompress`'s `main`, one constructor per
control path of `src/jpeg-recompress.c` lines 363-727.  The premises restate
the branch conditions of `runJpeg`; the relation exists to state determinism
of a run as a property of the control flow rather than of a Lean function. -/
inductive JpegRunRel (cfg : JpegCfg) (k : JpegCodec) (dok : Bool) (buf : List ℕ) :
    RunRes → Prop
  | badBounds (h : cfg.qMax < cfg.qMin) : JpegRunRel cfg k dok buf (.failed 1)
  | readFail (h1 : ¬ cfg.qMax < cfg.qMin) (h2 : buf = []) :
      JpegRunRel cfg k dok buf (.failed 1)
  | decodeFail (h1 : ¬ cfg.qMax < cfg.qMin) (h2 : buf ≠ []) (h3 : dok = false) :
      JpegRunRel cfg k dok buf (.failed 1)
  | alreadyCopy (h1 : ¬ cfg.qMax < cfg.qMin) (h2 : buf ≠ []) (h3 : dok = true)
      (h4 : metaStep cfg buf = none) (h5 : cfg.copyFiles = true) :
      JpegRunRel cfg k dok buf (.wrote 0 buf)
  | alreadyStrict (h1 : ¬ cfg.qMax < cfg.qMin) (h2 : buf ≠ []) (h3 : dok = true)
      (h4 : metaStep cfg buf = none) (h5 : cfg.copyFiles = false) :
      JpegRunRel cfg k dok buf (.failed 2)
  | budgetZero (metaRaw : List ℕ)
      (h1 : ¬ cfg.qMax < cfg.qMin) (h2 : buf ≠ []) (h3 : dok = true)
      (h4 : metaStep cfg buf = some metaRaw)
      (h5 : jpegSearchOf cfg k (jpegMeta cfg metaRaw) buf = none) :
      JpegRunRel cfg k dok buf (.failed 1)
  | codecErr (metaRaw : List ℕ) (its : List Iter) (cy : ℕ)
      (h1 : ¬ cfg.qMax < cfg.qMin) (h2 : buf ≠ []) (h3 : dok = true)
      (h4 : metaStep cfg buf = some metaRaw)
      (h5 : jpegSearchOf cfg k (jpegMeta cfg metaRaw) buf = some (.codecFail its cy)) :
      JpegRunRel cfg k dok buf (.failed 1)
  | guardCopy (metaRaw : List ℕ) (its : List Iter) (cy : ℕ)
      (h1 : ¬ cfg.qMax < cfg.qMin) (h2 : buf ≠ []) (h3 : dok = true)
      (h4 : metaStep cfg buf = some metaRaw)
      (h5 : jpegSearchOf cfg k (jpegMeta cfg metaRaw) buf = some (.guardHit its cy))
      (h6 : cfg.copyFiles = true) :
      JpegRunRel cfg k dok buf (.wrote 0 buf)
  | guardStrict (metaRaw : List ℕ) (its : List Iter) (cy : ℕ)
      (h1 : ¬ cfg.qMax < cfg.qMin) (h2 : buf ≠ []) (h3 : dok = true)
      (h4 : metaStep cfg buf = some metaRaw)
      (h5 : jpegSearchOf cfg k (jpegMeta cfg metaRaw) buf = some (.guardHit its cy))
      (h6 : cfg.copyFiles = false) :
      JpegRunRel cfg k dok buf (.failed 1)
  | sizeRegress (metaRaw : List ℕ) (its : List Iter) (lo hi : ℕ)
      (best : Option (ℕ × ℚ)) (lastQ : ℕ)
      (h1 : ¬ cfg.qMax < cfg.qMin) (h2 : buf ≠ []) (h3 : dok = true)
      (h4 : metaStep cfg buf = some metaRaw)
      (h5 : jpegSearchOf cfg k (jpegMeta cfg metaRaw) buf
        = some (.done its lo hi best lastQ))
      (h6 : buf.length ≤ (jpegFinalC cfg k lastQ).length + metaSizeCOM
        + (jpegMeta cfg metaRaw).length) :
      JpegRunRel cfg k dok buf (.wrote 1 buf)
  | structBad (metaRaw : List ℕ) (its : List Iter) (lo hi : ℕ)
      (best : Option (ℕ × ℚ)) (lastQ : ℕ)
      (h1 : ¬ cfg.qMax < cfg.qMin) (h2 : buf ≠ []) (h3 : dok = true)
      (h4 : metaStep cfg buf = some metaRaw)
      (h5 : jpegSearchOf cfg k (jpegMeta cfg metaRaw) buf
        = some (.done its lo hi best lastQ))
      (h6 : ¬ buf.length ≤ (jpegFinalC cfg k lastQ).length + metaSizeCOM
        + (jpegMeta cfg metaRaw).length)
      (h7 : structOk (jpegFinalC cfg k lastQ) = false) :
      JpegRunRel cfg k dok buf (.failed 1)
  | success (metaRaw : List ℕ) (its : List Iter) (lo hi : ℕ)
      (best : Option (ℕ × ℚ)) (lastQ : ℕ)
      (h1 : ¬ cfg.qMax < cfg.qMin) (h2 : buf ≠ []) (h3 : dok = true)
      (h4 : metaStep cfg buf = some metaRaw)
      (h5 : jpegSearchOf cfg k (jpegMeta cfg metaRaw) buf
        = some (.done its lo hi best lastQ))
      (h6 : ¬ buf.length ≤ (jpegFinalC cfg k lastQ).length + metaSizeCOM
        + (jpegMeta cfg metaRaw).length)
      (h7 : structOk (jpegFinalC cfg k lastQ) = true) :
      JpegRunRel cfg k dok buf
        (.wrote 0 (assembleOutput (jpegFinalC cfg k lastQ) (jpegMeta cfg metaRaw)))

/-- Big-step run relation for `archive2webp`'s `main`, one constructor per
control path of `src/archive2webp.c` lines 295-567. -/
inductive WebpRunRel (cfg : WebpCfg) (k : WebpCodec) (initOk dok igOk : Bool)
    (buf : List ℕ) : RunRes → Prop
  | badBounds (h : cfg.qMax < cfg.qMin) : WebpRunRel cfg k initOk dok igOk buf (.failed 1)
  | initFail (h1 : ¬ cfg.qMax < cfg.qMin) (h2 : initOk = false) :
      WebpRunRel cfg k initOk dok igOk buf (.failed 1)
  | readFail (h1 : ¬ cfg.qMax < cfg.qMin) (h2 : initOk = true) (h3 : buf = []) :
      WebpRunRel cfg k initOk dok igOk buf (.failed 1)
  | decodeFail (h1 : ¬ cfg.qMax < cfg.qMin) (h2 : initOk = true) (h3 : buf ≠ [])
      (h4 : dok = false) : WebpRunRel cfg k initOk dok igOk buf (.failed 1)
  | importFail (h1 : ¬ cfg.qMax < cfg.qMin) (h2 : initOk = true) (h3 : buf ≠ [])
      (h4 : dok = true) (h5 : igOk = false) :
      WebpRunRel cfg k initOk dok igOk buf (.failed 1)
  | budgetZero (h1 : ¬ cfg.qMax < cfg.qMin) (h2 : initOk = true) (h3 : buf ≠ [])
      (h4 : dok = true) (h5 : igOk = true) (h6 : webpSearchOf cfg k = none) :
      WebpRunRel cfg k initOk dok igOk buf (.failed 1)
  | codecErr (its : List Iter) (cy : ℕ)
      (h1 : ¬ cfg.qMax < cfg.qMin) (h2 : initOk = true) (h3 : buf ≠ [])
      (h4 : dok = true) (h5 : igOk = true)
      (h6 : webpSearchOf cfg k = some (.err its cy)) :
      WebpRunRel cfg k initOk dok igOk buf (.failed 1)
  | success (its : List Iter) (lo hi : ℕ) (best : Option (ℕ × ℚ)) (lastQ : ℕ)
      (h1 : ¬ cfg.qMax < cfg.qMin) (h2 : initOk = true) (h3 : buf ≠ [])
      (h4 : dok = true) (h5 : igOk = true)
      (h6 : webpSearchOf cfg k = some (.done its lo hi best lastQ)) :
      WebpRunRel cfg k initOk dok igOk buf (.wrote 0 (k.enc lastQ))

theorem jpegRunRel_run (cfg : JpegCfg) (k : JpegCodec) (dok : Bool) (buf : List ℕ) :
    JpegRunRel cfg k dok buf (runJpeg cfg k dok buf) := by
  by_cases h1 : cfg.qMax < cfg.qMin
  · rw [show runJpeg cfg k dok buf = .failed 1 by simp [runJpeg, h1]]
    exact .badBounds h1
  · by_cases h2 : buf = []
    · rw [show runJpeg cfg k dok buf = .failed 1 by simp [runJpeg, h1, h2]]
      exact .readFail h1 h2
    · cases dok with
      | false =>
        rw [show runJpeg cfg k false buf = .failed 1 by simp [runJpeg, h1, h2]]
        exact .decodeFail h1 h2 rfl
      | true =>
        cases h4 : metaStep cfg buf with
        | none =>
          cases h5 : cfg.copyFiles with
          | true =>
            rw [show runJpeg cfg k true buf = .wrote 0 buf by simp [runJpeg, h1, h2, h4, h5]]
            exact .alreadyCopy h1 h2 rfl h4 h5
          | false =>
            rw [show runJpeg cfg k true buf = .failed 2 by simp [runJpeg, h1, h2, h4, h5]]
            exact .alreadyStrict h1 h2 rfl h4 h5
        | some metaRaw =>
          cases h5 : jpegSearchOf cfg k (jpegMeta cfg metaRaw) buf with
          | none =>
            rw [show runJpeg cfg k true buf = .failed 1 by simp [runJpeg, h1, h2, h4, h5]]
            exact .budgetZero metaRaw h1 h2 rfl h4 h5
          | some res =>
            cases res with
            | codecFail its cy =>
              rw [show runJpeg cfg k true buf = .failed 1 by simp [runJpeg, h1, h2, h4, h5]]
              exact .codecErr metaRaw its cy h1 h2 rfl h4 h5
            | guardHit its cy =>
              cases h6 : cfg.copyFiles with
              | true =>
                rw [show runJpeg cfg k true buf = .wrote 0 buf by
                  simp [runJpeg, h1, h2, h4, h5, h6]]
                exact .guardCopy metaRaw its cy h1 h2 rfl h4 h5 h6
              | false =>
                rw [show runJpeg cfg k true buf = .failed 1 by
                  simp [runJpeg, h1, h2, h4, h5, h6]]
                exact .guardStrict metaRaw its cy h1 h2 rfl h4 h5 h6
            | done its lo hi best lastQ =>
              by_cases h6 : buf.length ≤ (jpegFinalC cfg k lastQ).length + metaSizeCOM
                  + (jpegMeta cfg metaRaw).length
              · rw [show runJpeg cfg k true buf = .wrote 1 buf by
                  simp [runJpeg, h1, h2, h4, h5, h6]]
                exact .sizeRegress metaRaw its lo hi best lastQ h1 h2 rfl h4 h5 h6
              · cases h7 : structOk (jpegFinalC cfg k lastQ) with
                | false =>
                  rw [show runJpeg cfg k true buf = .failed 1 by
                    simp [runJpeg, h1, h2, h4, h5, h6, h7]]
                  exact .structBad metaRaw its lo hi best lastQ h1 h2 rfl h4 h5 h6 h7
                | true =>
                  rw [show runJpeg cfg k true buf
                      = .wrote 0 (assembleOutput (jpegFinalC cfg k lastQ)
                          (jpegMeta cfg metaRaw)) by
                    simp [runJpeg, h1, h2, h4, h5, h6, h7]]
                  exact .success metaRaw its lo hi best lastQ h1 h2 rfl h4 h5 h6 h7

theorem webpRunRel_run (cfg : WebpCfg) (k : WebpCodec) (initOk dok igOk : Bool)
    (buf : List ℕ) :
    WebpRunRel cfg k initOk dok igOk buf (runWebp cfg k initOk dok igOk buf) := by
  by_cases h1 : cfg.qMax < cfg.qMin
  · rw [show runWebp cfg k initOk dok igOk buf = .failed 1 by simp [runWebp, h1]]
    exact .badBounds h1
  · cases initOk with
    | false =>
      rw [show runWebp cfg k false dok igOk buf = .failed 1 by simp [runWebp, h1]]
      exact .initFail h1 rfl
    | true =>
      by_cases h3 : buf = []
      · rw [show runWebp cfg k true dok igOk buf = .failed 1 by simp [runWebp, h1, h3]]
        exact .readFail h1 rfl h3
      · cases dok with
        | false =>
          rw [show runWebp cfg k true false igOk buf = .failed 1 by simp [runWebp, h1, h3]]
          exact .decodeFail h1 rfl h3 rfl
        | true =>
          cases igOk with
          | false =>
            rw [show runWebp cfg k true true false buf = .failed 1 by simp [runWebp, h1, h3]]
            exact .importFail h1 rfl h3 rfl rfl
          | true =>
            cases h6 : webpSearchOf cfg k with
            | none =>
              rw [show runWebp cfg k true true true buf = .failed 1 by
                simp [runWebp, h1, h3, h6]]
              exact .budgetZero h1 rfl h3 rfl rfl h6
            | some res =>
              cases res with
              | err its cy =>
                rw [show runWebp cfg k true true true buf = .failed 1 by
                  simp [runWebp, h1, h3, h6]]
                exact .codecErr its cy h1 rfl h3 rfl rfl h6
              | done its lo hi best lastQ =>
                rw [show runWebp cfg k true true true buf = .wrote 0 (k.enc lastQ) by
                  simp [runWebp, h1, h3, h6]]
                exact .success its lo hi best lastQ h1 rfl h3 rfl rfl h6

end A2W

namespace A2W

theorem jpegRunRel_det {cfg : JpegCfg} {k : JpegCodec} {dok : Bool} {buf : List ℕ}
    {r1 r2 : RunRes} (hA : JpegRunRel cfg k dok buf r1) (hB : JpegRunRel cfg k dok buf r2) :
    r1 = r2 := by
  cases hA <;> cases hB <;> simp_all <;> omega

theorem webpRunRel_det {cfg : WebpCfg} {k : WebpCodec} {initOk dok igOk : Bool}
    {buf : List ℕ} {r1 r2 : RunRes}
    (hA : WebpRunRel cfg k initOk dok igOk buf r1)
    (hB : WebpRunRel cfg k initOk dok igOk buf r2) : r1 = r2 := by
  cases hA <;> cases hB <;> simp_all

end A2W

namespace A2W

/-- The bound-update policy exactly as claim C3 states it, to be proved of
every recorded iteration. -/
def BranchPolicy (m : Method) (t : ℚ) (it : Iter) : Prop :=
  ((m = .ssim ∨ m = .msSsim ∨ m = .smallfry) →
     (it.score < t → it.loNext = Nat.min (it.quality + 1) it.hi ∧ it.hiNext = it.hi) ∧
     (t ≤ it.score → it.hiNext = Nat.max (it.quality - 1) it.lo ∧ it.loNext = it.lo)) ∧
  (m = .mpe →
     (it.score < t → it.hiNext = Nat.max (it.quality - 1) it.lo ∧ it.loNext = it.lo) ∧
     (t ≤ it.score → it.loNext = Nat.min (it.quality + 1) it.hi ∧ it.hiNext = it.hi))

theorem iterStep_branch {m : Method} {t : ℚ} {it : Iter} (h : IterStep m t it) :
    BranchPolicy m t it := by
  have h2 := h.2.2
  constructor
  · rintro (rfl | rfl | rfl) <;>
    · constructor
      · intro hs
        simp [updateBounds, higherBetter, hs, Prod.ext_iff] at h2
        exact ⟨h2.1, h2.2⟩
      · intro hs
        simp [updateBounds, higherBetter, not_lt_of_le hs, Prod.ext_iff] at h2
        exact ⟨h2.2, h2.1⟩
  · rintro rfl
    constructor
    · intro hs
      simp [updateBounds, higherBetter, hs, Prod.ext_iff] at h2
      exact ⟨h2.2, h2.1⟩
    · intro hs
      simp [updateBounds, higherBetter, not_lt_of_le hs, Prod.ext_iff] at h2
      exact ⟨h2.1, h2.2⟩

/-- The strict-improvement best-update policy exactly as claim C6 states it. -/
def BestPolicy (t : ℚ) (it : Iter) : Prop :=
  bestDiffT it.bestAfter ≤ bestDiffT it.bestBefore ∧
  (((|t - it.score| : ℚ) : WithTop ℚ) < bestDiffT it.bestBefore →
      it.bestAfter = some (it.quality, |t - it.score|)) ∧
  (bestDiffT it.bestBefore ≤ ((|t - it.score| : ℚ) : WithTop ℚ) →
      it.bestAfter = it.bestBefore)

theorem iterStep_best {m : Method} {t : ℚ} {it : Iter} (h : IterStep m t it) :
    BestPolicy t it := by
  refine ⟨h.diff_le, ?_, ?_⟩
  · intro hlt
    rw [h.2.1]
    exact updBest_lt_eq t it.score it.quality it.bestBefore hlt
  · intro hge
    rw [h.2.1]
    exact updBest_ge_eq t it.score it.quality it.bestBefore hge

theorem webpSearch_trace (k : WebpCodec) (m : Method) (t : ℚ) (qMin qMax attempts : ℕ) :
    TraceFrom m t qMin qMax none (itersOfW (webpSearch k m t qMin qMax attempts)) := by
  cases attempts with
  | zero => exact TraceFrom.nil _ _ _
  | succ n =>
    obtain ⟨tl, htl, htr⟩ := webpGo_iters k m t n qMin qMax none []
    show TraceFrom m t qMin qMax none (itersOfW (some (webpGo k m t n qMin qMax none [])))
    rw [htl]
    simpa using htr

theorem jpegSearch_trace (k : JpegCodec) (m : Method) (t : ℚ) (noProg accurate : Bool)
    (metaSz bufSz qMin qMax attempts : ℕ) :
    TraceFrom m t qMin qMax none
      (itersOfJ (jpegSearch k m t noProg accurate metaSz bufSz qMin qMax attempts)) := by
  cases attempts with
  | zero => exact TraceFrom.nil _ _ _
  | succ n =>
    obtain ⟨tl, htl, htr⟩ := jpegGo_iters k m t noProg accurate metaSz bufSz n qMin qMax none []
    show TraceFrom m t qMin qMax none
      (itersOfJ (some (jpegGo k m t noProg accurate metaSz bufSz n qMin qMax none [])))
    rw [htl]
    simpa using htr

end A2W

namespace A2W

/-- Concrete WebP codec for witnesses: encoding a quality `q` yields `[q]`,
decoding always succeeds, the score grows linearly with quality. -/
def wkW : WebpCodec :=
  ⟨fun _ => true, fun _ => true, fun _ => true, fun q => (q : ℚ) / 100, fun q => [q]⟩

/-- Concrete JPEG codec for witnesses. -/
def wkJ : JpegCodec :=
  ⟨fun q _ _ => [q], fun _ _ _ => true, fun q _ _ => (q : ℚ) / 100⟩

/-- C3: on every completed iteration of either variant, for the
higher-is-better metrics (SSIM, MS-SSIM, Smallfry) a score below target
raises the lower bound to `min (quality+1) max` leaving the upper bound
unchanged, and a score at or above target lowers the upper bound to
`max (quality-1) min` leaving the lower bound unchanged; for MPE the policy
is inverted. -/
theorem c3_branch_policy (wk : WebpCodec) (jk : JpegCodec) (m : Method) (t : ℚ)
    (noProg accurate : Bool) (metaSz bufSz qMin qMax attempts : ℕ) :
    (∀ it ∈ itersOfW (webpSearch wk m t qMin qMax attempts), BranchPolicy m t it) ∧
    (∀ it ∈ itersOfJ (jpegSearch jk m t noProg accurate metaSz bufSz qMin qMax attempts),
      BranchPolicy m t it) := by
  constructor
  · intro it hit
    exact iterStep_branch (trace_istep (webpSearch_trace wk m t qMin qMax attempts) it hit)
  · intro it hit
    exact iterStep_branch
      (trace_istep (jpegSearch_trace jk m t noProg accurate metaSz bufSz qMin qMax attempts)
        it hit)

theorem c3_witness :
    BranchPolicy .ssim 1 (iterCore .ssim 1 true 7 7 none (wkW.score 7)) :=
  (c3_branch_policy wkW wkJ .ssim 1 false false 0 1000 7 7 1).1
    (iterCore .ssim 1 true 7 7 none (wkW.score 7))
    (List.mem_singleton_self _)

/-- C4: for every run whose initial bounds satisfy `qMin ≤ qMax` (both
programs validate this before the search), every recorded iteration of
either variant enters with `min ≤ max` and leaves `min ≤ max` after its
bound update. -/
theorem c4_bounds_invariant (wk : WebpCodec) (jk : JpegCodec) (m : Method) (t : ℚ)
    (noProg accurate : Bool) (metaSz bufSz qMin qMax attempts : ℕ)
    (h : qMin ≤ qMax) :
    (∀ it ∈ itersOfW (webpSearch wk m t qMin qMax attempts),
      it.lo ≤ it.hi ∧ it.loNext ≤ it.hiNext) ∧
    (∀ it ∈ itersOfJ (jpegSearch jk m t noProg accurate metaSz bufSz qMin qMax attempts),
      it.lo ≤ it.hi ∧ it.loNext ≤ it.hiNext) :=
  ⟨trace_bounds (webpSearch_trace wk m t qMin qMax attempts) h,
   trace_bounds (jpegSearch_trace jk m t noProg accurate metaSz bufSz qMin qMax attempts) h⟩

theorem c4_witness :
    (iterCore .ssim 1 true 7 7 none (wkW.score 7)).lo
        ≤ (iterCore .ssim 1 true 7 7 none (wkW.score 7)).hi ∧
      (iterCore .ssim 1 true 7 7 none (wkW.score 7)).loNext
        ≤ (iterCore .ssim 1 true 7 7 none (wkW.score 7)).hiNext :=
  (c4_bounds_invariant wkW wkJ .ssim 1 false false 0 1000 7 7 1 (by decide)).1
    (iterCore .ssim 1 true 7 7 none (wkW.score 7)) (List.mem_singleton_self _)

/-- C5: for every metric and bounds, both search loops terminate (they are
total functions of a decreasing attempt counter) and perform at most
`attempts` encode/decode/score cycles; when `qMin = qMax` and at least one
attempt is budgeted, exactly one cycle occurs. -/
theorem c5_cycle_bound (wk : WebpCodec) (jk : JpegCodec) (m : Method) (t : ℚ)
    (noProg accurate : Bool) (metaSz bufSz qMin qMax attempts : ℕ) :
    (cyclesOfW (webpSearch wk m t qMin qMax attempts) ≤ attempts ∧
     cyclesOfJ (jpegSearch jk m t noProg accurate metaSz bufSz qMin qMax attempts)
       ≤ attempts) ∧
    (qMin = qMax → 1 ≤ attempts →
      cyclesOfW (webpSearch wk m t qMin qMax attempts) = 1 ∧
      cyclesOfJ (jpegSearch jk m t noProg accurate metaSz bufSz qMin qMax attempts) = 1) := by
  constructor
  · constructor
    · cases attempts with
      | zero => simp [webpSearch, cyclesOfW]
      | succ n =>
        have := webpGo_cycles wk m t n qMin qMax none []
        simpa [webpSearch] using this
    · cases attempts with
      | zero => simp [jpegSearch, cyclesOfJ]
      | succ n =>
        have := jpegGo_cycles jk m t noProg accurate metaSz bufSz n qMin qMax none []
        simpa [jpegSearch] using this
  · rintro rfl h1
    cases attempts with
    | zero => omega
    | succ n =>
      constructor
      · have := webpGo_single wk m t n qMin none []
        simpa [webpSearch] using this
      · have := jpegGo_single jk m t noProg accurate metaSz bufSz n qMin none []
        simpa [jpegSearch] using this

theorem c5_witness :
    cyclesOfW (webpSearch wkW .ssim (1/2) 7 7 8) = 1 ∧
    cyclesOfJ (jpegSearch wkJ .ssim (1/2) false false 0 1000 7 7 8) = 1 :=
  (c5_cycle_bound wkW wkJ .ssim (1/2) false false 0 1000 7 7 8).2 rfl (by decide)

/-- C6: on every iteration of either variant the best candidate is updated
exactly on strict improvement of `|target - score|` (a tie or a worse diff
leaves it unchanged), and across the whole search the recorded `bestDiff`
never increases. -/
theorem c6_best_policy (wk : WebpCodec) (jk : JpegCodec) (m : Method) (t : ℚ)
    (noProg accurate : Bool) (metaSz bufSz qMin qMax attempts : ℕ) :
    (∀ it ∈ itersOfW (webpSearch wk m t qMin qMax attempts), BestPolicy t it) ∧
    (∀ it ∈ itersOfJ (jpegSearch jk m t noProg accurate metaSz bufSz qMin qMax attempts),
      BestPolicy t it) ∧
    (∀ (i j : ℕ) (hi : i < (itersOfW (webpSearch wk m t qMin qMax attempts)).length)
        (hj : j < (itersOfW (webpSearch wk m t qMin qMax attempts)).length), i ≤ j →
      bestDiffT ((itersOfW (webpSearch wk m t qMin qMax attempts)).get ⟨j, hj⟩).bestAfter
        ≤ bestDiffT ((itersOfW (webpSearch wk m t qMin qMax attempts)).get ⟨i, hi⟩).bestAfter) ∧
    (∀ (i j : ℕ)
        (hi : i < (itersOfJ (jpegSearch jk m t noProg accurate metaSz bufSz qMin qMax
          attempts)).length)
        (hj : j < (itersOfJ (jpegSearch jk m t noProg accurate metaSz bufSz qMin qMax
          attempts)).length), i ≤ j →
      bestDiffT ((itersOfJ (jpegSearch jk m t noProg accurate metaSz bufSz qMin qMax
        attempts)).get ⟨j, hj⟩).bestAfter
        ≤ bestDiffT ((itersOfJ (jpegSearch jk m t noProg accurate metaSz bufSz qMin qMax
          attempts)).get ⟨i, hi⟩).bestAfter) := by
  refine ⟨?_, ?_, ?_, ?_⟩
  · intro it hit
    exact iterStep_best (trace_istep (webpSearch_trace wk m t qMin qMax attempts) it hit)
  · intro it hit
    exact iterStep_best
      (trace_istep (jpegSearch_trace jk m t noProg accurate metaSz bufSz qMin qMax attempts)
        it hit)
  · exact trace_diff_pair (webpSearch_trace wk m t qMin qMax attempts)
  · exact trace_diff_pair (jpegSearch_trace jk m t noProg accurate metaSz bufSz qMin qMax attempts)

theorem c6_witness :
    BestPolicy 1 (iterCore .ssim 1 true 9 9 none (wkW.score 9)) :=
  (c6_best_policy wkW wkJ .ssim 1 false false 0 1000 9 9 1).1
    (iterCore .ssim 1 true 9 9 none (wkW.score 9))
    (List.mem_singleton_self _)

/-- C10: in both variants, whenever the parsed `--target` value is 0 (flag
absent, an explicit "0", or a non-numeric string that `atof` maps to 0), the
effective search target is taken from the per-variant preset table instead;
every preset target is non-zero, so an explicit target of 0 can never be the
effective target. -/
theorem c10_target_preset (m : Method) (p : Preset) (t : ℚ) :
    (t = 0 → effTargetJ t m p = presetTargetJ m p ∧ effTargetW t m p = presetTargetW m p) ∧
    (t ≠ 0 → effTargetJ t m p = t ∧ effTargetW t m p = t) ∧
    presetTargetJ m p ≠ 0 ∧ presetTargetW m p ≠ 0 ∧
    effTargetJ t m p ≠ 0 ∧ effTargetW t m p ≠ 0 := by
  have hj : presetTargetJ m p ≠ 0 := by cases m <;> cases p <;> norm_num [presetTargetJ]
  have hw : presetTargetW m p ≠ 0 := by cases m <;> cases p <;> norm_num [presetTargetW]
  refine ⟨?_, ?_, hj, hw, ?_, ?_⟩
  · rintro rfl
    simp [effTargetJ, effTargetW]
  · intro ht
    simp [effTargetJ, effTargetW, ht]
  · by_cases ht : t = 0 <;> simp [effTargetJ, ht, hj]
  · by_cases ht : t = 0 <;> simp [effTargetW, ht, hw]

theorem c10_witness :
    effTargetJ 0 .ssim .medium = presetTargetJ .ssim .medium ∧
    effTargetW 0 .ssim .medium = presetTargetW .ssim .medium :=
  (c10_target_preset .ssim .medium 0).1 rfl

end A2W


namespace A2W

/-- Codec for the C1 counterexample: score equals the trial quality. -/
def ce1K : WebpCodec :=
  ⟨fun _ => true, fun _ => true, fun _ => true, fun q => (q : ℚ), fun q => [q]⟩

/-- Options of the C1 counterexample run: SSIM, explicit target 30,
bounds 1..99, 3 attempts. -/
def ce1Cfg : WebpCfg := ⟨.ssim, 30, .medium, 1, 99, 3, .ppm⟩

theorem c1_ce_search : webpSearch ce1K .ssim 30 1 99 3
    = some (.done
        [iterCore .ssim 30 false 1 99 none 50,
         iterCore .ssim 30 false 1 49 (some (50, |(30:ℚ) - 50|)) 25,
         iterCore .ssim 30 true 26 49 (some (25, |(30:ℚ) - 25|)) 37]
        26 36 (some (25, |(30:ℚ) - 25|)) 37) := by
  have hq50 : decide ((50:ℚ) < 30) = false := decide_eq_false (by norm_num)
  have hq25 : decide ((25:ℚ) < 30) = true := decide_eq_true (by norm_num)
  have hq37 : decide ((37:ℚ) < 30) = false := decide_eq_false (by norm_num)
  have hlt2 : |(30:ℚ) - 25| < |(30:ℚ) - 50| := by norm_num
  have hge3 : ¬ (|(30:ℚ) - 37| < |(30:ℚ) - 25|) := by norm_num
  have hit1 : iterCore .ssim 30 false 1 99 none 50
      = ⟨1, 99, 50, false, 50, none, some (50, |(30:ℚ) - 50|), 1, 49⟩ := by
    simp [iterCore, midpoint, updBest, updateBounds, higherBetter, hq50]
  have hit2 : iterCore .ssim 30 false 1 49 (some (50, |(30:ℚ) - 50|)) 25
      = ⟨1, 49, 25, false, 25, some (50, |(30:ℚ) - 50|),
          some (25, |(30:ℚ) - 25|), 26, 49⟩ := by
    simp [iterCore, midpoint, updBest, updateBounds, higherBetter, hq25, if_pos hlt2]
  have hit3 : iterCore .ssim 30 true 26 49 (some (25, |(30:ℚ) - 25|)) 37
      = ⟨26, 49, 37, true, 37, some (25, |(30:ℚ) - 25|),
          some (25, |(30:ℚ) - 25|), 26, 36⟩ := by
    simp [iterCore, midpoint, updBest, updateBounds, higherBetter, hq37, if_neg hge3]
  have hst1 : webpStep ce1K .ssim 30 false 1 99 none
      = some (iterCore .ssim 30 false 1 99 none 50) := rfl
  have hst2 : webpStep ce1K .ssim 30 false 1 49 (some (50, |(30:ℚ) - 50|))
      = some (iterCore .ssim 30 false 1 49 (some (50, |(30:ℚ) - 50|)) 25) := rfl
  have hst3 : webpStep ce1K .ssim 30 true 26 49 (some (25, |(30:ℚ) - 25|))
      = some (iterCore .ssim 30 true 26 49 (some (25, |(30:ℚ) - 25|)) 37) := rfl
  have hf1 : earlyStop (midpoint 1 99) 1 99 none = false := rfl
  have hf2 : earlyStop (midpoint 1 49) 1 49 (some (50, |(30:ℚ) - 50|)) = false := rfl
  show webpSearch ce1K .ssim 30 1 99 3 = _
  rw [show webpSearch ce1K .ssim 30 1 99 3
      = some (webpGo ce1K .ssim 30 2 1 99 none []) from rfl]
  rw [show webpGo ce1K .ssim 30 2 1 99 none []
      = webpGo ce1K .ssim 30 1 1 49 (some (50, |(30:ℚ) - 50|)) [iterCore .ssim 30 false 1 99 none 50] by
    simp [webpGo, hf1, hst1, hit1]]
  rw [show webpGo ce1K .ssim 30 1 1 49 (some (50, |(30:ℚ) - 50|))
        [iterCore .ssim 30 false 1 99 none 50]
      = webpGo ce1K .ssim 30 0 26 49 (some (25, |(30:ℚ) - 25|))
        [iterCore .ssim 30 false 1 99 none 50,
         iterCore .ssim 30 false 1 49 (some (50, |(30:ℚ) - 50|)) 25] by
    simp [webpGo, hf2, hst2, hit2]]
  rw [show webpGo ce1K .ssim 30 0 26 49 (some (25, |(30:ℚ) - 25|))
        [iterCore .ssim 30 false 1 99 none 50,
         iterCore .ssim 30 false 1 49 (some (50, |(30:ℚ) - 50|)) 25]
      = WebpLoopRes.done
        [iterCore .ssim 30 false 1 99 none 50,
         iterCore .ssim 30 false 1 49 (some (50, |(30:ℚ) - 50|)) 25,
         iterCore .ssim 30 true 26 49 (some (25, |(30:ℚ) - 25|)) 37]
        26 36 (some (25, |(30:ℚ) - 25|)) 37 by
    simp [webpGo, hst3, hit3]]

end A2W

namespace A2W

/-- C1 (amended): both variants emit the bytes encoded on the loop's final
iteration.  The final quality equals `bestQuality` whenever the final
iteration strictly improved the best or was entered with the trial quality
already equal to `bestQuality` (the early-termination case); when the
attempt budget runs out, or the interval collapses, on an iteration that
does not improve the best, the emitted candidate's quality can differ from
`bestQuality`. -/
theorem c1_emitted_candidate (wk : WebpCodec) (jk : JpegCodec) (m : Method) (t : ℚ)
    (noProg accurate : Bool) (metaSz bufSz qMin qMax attempts : ℕ) :
    (∀ its flo fhi best lastQ,
      webpSearch wk m t qMin qMax attempts = some (.done its flo fhi best lastQ) →
      ∃ it, its.getLast? = some it ∧ lastQ = it.quality ∧ best = it.bestAfter ∧
        ((it.bestAfter ≠ it.bestBefore ∨ bestQual it.bestBefore = some it.quality) →
          bestQual best = some lastQ)) ∧
    (∀ its flo fhi best lastQ,
      jpegSearch jk m t noProg accurate metaSz bufSz qMin qMax attempts
        = some (.done its flo fhi best lastQ) →
      ∃ it, its.getLast? = some it ∧ lastQ = it.quality ∧ best = it.bestAfter ∧
        ((it.bestAfter ≠ it.bestBefore ∨ bestQual it.bestBefore = some it.quality) →
          bestQual best = some lastQ)) := by
  constructor
  · intro its flo fhi best lastQ hdone
    cases attempts with
    | zero => simp [webpSearch] at hdone
    | succ n =>
      have htr := webpSearch_trace wk m t qMin qMax (n + 1)
      rw [hdone] at htr
      simp only [itersOfW] at htr
      simp only [webpSearch, Option.some.injEq] at hdone
      obtain ⟨it, hlast, hmem, hq, hb, hfin⟩ :=
        webpGo_done wk m t n qMin qMax none [] its flo fhi best lastQ hdone
      have hstep := trace_istep htr it hmem
      refine ⟨it, hlast, hq, hb, ?_⟩
      rintro (hne | hstable)
      · rw [hb, hq, hstep.2.1]
        rw [hstep.2.1] at hne
        exact updBest_quality_of_ne _ _ _ _ hne
      · rw [hb, hq, hstep.2.1]
        exact updBest_quality_stable _ _ _ _ hstable
  · intro its flo fhi best lastQ hdone
    cases attempts with
    | zero => simp [jpegSearch] at hdone
    | succ n =>
      have htr := jpegSearch_trace jk m t noProg accurate metaSz bufSz qMin qMax (n + 1)
      rw [hdone] at htr
      simp only [itersOfJ] at htr
      simp only [jpegSearch, Option.some.injEq] at hdone
      obtain ⟨it, hlast, hmem, hq, hb, hfin⟩ :=
        jpegGo_done jk m t noProg accurate metaSz bufSz n qMin qMax none [] its flo fhi
          best lastQ hdone
      have hstep := trace_istep htr it hmem
      refine ⟨it, hlast, hq, hb, ?_⟩
      rintro (hne | hstable)
      · rw [hb, hq, hstep.2.1]
        rw [hstep.2.1] at hne
        exact updBest_quality_of_ne _ _ _ _ hne
      · rw [hb, hq, hstep.2.1]
        exact updBest_quality_stable _ _ _ _ hstable

theorem c1_witness :
    ∃ it, [iterCore .ssim 1 true 7 7 none (wkW.score 7)].getLast? = some it ∧
      (iterCore .ssim 1 true 7 7 none (wkW.score 7)).quality = it.quality ∧
      (iterCore .ssim 1 true 7 7 none (wkW.score 7)).bestAfter = it.bestAfter ∧
      ((it.bestAfter ≠ it.bestBefore ∨ bestQual it.bestBefore = some it.quality) →
        bestQual (iterCore .ssim 1 true 7 7 none (wkW.score 7)).bestAfter
          = some (iterCore .ssim 1 true 7 7 none (wkW.score 7)).quality) :=
  (c1_emitted_candidate wkW wkJ .ssim 1 false false 0 1000 7 7 1).1
    [iterCore .ssim 1 true 7 7 none (wkW.score 7)]
    (iterCore .ssim 1 true 7 7 none (wkW.score 7)).loNext
    (iterCore .ssim 1 true 7 7 none (wkW.score 7)).hiNext
    (iterCore .ssim 1 true 7 7 none (wkW.score 7)).bestAfter
    (iterCore .ssim 1 true 7 7 none (wkW.score 7)).quality
    rfl

/-- C1 counterexample: with score(q) = q, target 30, bounds 1..99 and three
attempts, the budget runs out on an iteration at quality 37 that does not
improve the best (best is quality 25, diff 5); the run writes the candidate
encoded at quality 37, not the one encoded at bestQuality 25. -/
theorem c1_counterexample :
    runWebp ce1Cfg ce1K true true true [7] = .wrote 0 (ce1K.enc 37) ∧
    bestQualOfW (webpSearchOf ce1Cfg ce1K) = some 25 ∧
    lastQOfW (webpSearchOf ce1Cfg ce1K) = some 37 ∧
    ce1K.enc 37 ≠ ce1K.enc 25 := by
  have heff : effTargetW (30 : ℚ) .ssim .medium = 30 := by norm_num [effTargetW]
  have hso : webpSearchOf ce1Cfg ce1K = webpSearch ce1K .ssim 30 1 99 3 := by
    simp [webpSearchOf, ce1Cfg, heff]
  refine ⟨?_, ?_, ?_, by decide⟩
  · rw [show runWebp ce1Cfg ce1K true true true [7]
        = match webpSearchOf ce1Cfg ce1K with
          | none => RunRes.failed 1
          | some (.err _ _) => RunRes.failed 1
          | some (.done _ _ _ _ lastQ) => RunRes.wrote 0 (ce1K.enc lastQ) by
      simp [runWebp, ce1Cfg]]
    rw [hso, c1_ce_search]
  · rw [hso, c1_ce_search]
    simp [bestQualOfW, bestQual]
  · rw [hso, c1_ce_search]
    simp [lastQOfW]

end A2W

namespace A2W

/-- Codec for the C2 counterexample: every candidate is 100 bytes and scores
above target. -/
def ce2K : JpegCodec :=
  ⟨fun _ _ _ => List.replicate 100 0, fun _ _ _ => true, fun _ _ _ => (2 : ℚ)⟩

/-- Options of the C2 counterexample run: PPM input, target 1, bounds 50..50,
one attempt, copy-through enabled. -/
def ce2Cfg : JpegCfg := ⟨.ssim, 1, .medium, 50, 50, 1, false, false, true, false, .ppm⟩

/-- Input of the C2 counterexample run: 20 bytes. -/
def ce2Buf : List ℕ := List.replicate 20 5

/-- C2 (amended): the size policy of the re-encode variant is split in two.
Inside the loop, an iteration fires the guard exactly when its score is
below target and `candidateSize + metaSizeCOM + metaSize + minDelta ≥
bufSize`; a fired guard ends the run with exit 0 emitting the original
bytes when copy-through is enabled, exit 1 otherwise.  After the loop, if
the final candidate's total size is at least the original size, the
original bytes are written but the run exits 1; otherwise the winning
candidate is assembled and written.  The format-conversion variant emits
the winning candidate unconditionally, with no size check. -/
theorem c2_size_guard :
    (∀ (k : JpegCodec) (m : Method) (t : ℚ) (noProg accurate : Bool)
        (metaSz bufSz : ℕ) (f : Bool) (lo hi : ℕ) (best : Option (ℕ × ℚ)),
      jpegStep k m t noProg accurate metaSz bufSz f lo hi best = .guard ↔
        (k.decOk (midpoint lo hi) (f && !noProg) (accurate || f) = true ∧
         k.score (midpoint lo hi) (f && !noProg) (accurate || f) < t ∧
         bufSz ≤ (k.enc (midpoint lo hi) (f && !noProg) (accurate || f)).length
           + metaSizeCOM + metaSz + minDelta)) ∧
    (∀ (cfg : JpegCfg) (k : JpegCodec) (buf metaRaw : List ℕ),
      ¬ cfg.qMax < cfg.qMin → buf ≠ [] → metaStep cfg buf = some metaRaw →
      (∀ its cy, jpegSearchOf cfg k (jpegMeta cfg metaRaw) buf = some (.guardHit its cy) →
        runJpeg cfg k true buf
          = if cfg.copyFiles then .wrote 0 buf else .failed 1) ∧
      (∀ its lo hi best lastQ,
        jpegSearchOf cfg k (jpegMeta cfg metaRaw) buf = some (.done its lo hi best lastQ) →
        (buf.length ≤ (jpegFinalC cfg k lastQ).length + metaSizeCOM
            + (jpegMeta cfg metaRaw).length →
          runJpeg cfg k true buf = .wrote 1 buf) ∧
        (¬ buf.length ≤ (jpegFinalC cfg k lastQ).length + metaSizeCOM
            + (jpegMeta cfg metaRaw).length →
          structOk (jpegFinalC cfg k lastQ) = true →
          runJpeg cfg k true buf
            = .wrote 0 (assembleOutput (jpegFinalC cfg k lastQ) (jpegMeta cfg metaRaw))))) ∧
    (∀ (wcfg : WebpCfg) (wk : WebpCodec) (wbuf : List ℕ) its lo hi best lastQ,
      ¬ wcfg.qMax < wcfg.qMin → wbuf ≠ [] →
      webpSearchOf wcfg wk = some (.done its lo hi best lastQ) →
      runWebp wcfg wk true true true wbuf = .wrote 0 (wk.enc lastQ)) := by
  refine ⟨?_, ?_, ?_⟩
  · intro k m t noProg accurate metaSz bufSz f lo hi best
    simp only [jpegStep]
    split_ifs with hd hg <;>
      simp_all [Bool.and_eq_true, decide_eq_true_eq, Bool.not_eq_true']
  · intro cfg k buf metaRaw h1 h2 h4
    constructor
    · intro its cy h5
      cases h6 : cfg.copyFiles with
      | true => simp [runJpeg, h1, h2, h4, h5, h6]
      | false => simp [runJpeg, h1, h2, h4, h5, h6]
    · intro its lo hi best lastQ h5
      constructor
      · intro h6
        simp [runJpeg, h1, h2, h4, h5, h6]
      · intro h6 h7
        simp [runJpeg, h1, h2, h4, h5, h6, h7]
  · intro wcfg wk wbuf its lo hi best lastQ hw1 hw2 hw6
    simp [runWebp, hw1, hw2, hw6]

theorem c2_witness :
    runJpeg ce2Cfg ce2K true ce2Buf = .wrote 1 ce2Buf :=
  (((c2_size_guard.2.1 ce2Cfg ce2K ce2Buf [] (by decide) (by decide)
      (by decide)).2)
    [iterCore .ssim 1 true 50 50 none (ce2K.score 50 true true)]
    (iterCore .ssim 1 true 50 50 none (ce2K.score 50 true true)).loNext
    (iterCore .ssim 1 true 50 50 none (ce2K.score 50 true true)).hiNext
    (iterCore .ssim 1 true 50 50 none (ce2K.score 50 true true)).bestAfter
    (iterCore .ssim 1 true 50 50 none (ce2K.score 50 true true)).quality
    rfl).1 (by decide)

/-- C2 counterexample: the final iteration scores above target, so the
in-loop guard never runs; the post-loop check sees `totalSize ≥ bufSize`
with copy-through enabled, emits the original bytes, and exits 1 — the
claim requires exit 0 whenever `totalSize + 10 ≥ bufSize` and copy-through
is enabled. -/
theorem c2_counterexample :
    runJpeg ce2Cfg ce2K true ce2Buf = .wrote 1 ce2Buf ∧
    ce2Cfg.copyFiles = true ∧
    ce2Buf.length ≤ (ce2K.enc 50 true true).length + metaSizeCOM + 0 + minDelta ∧
    RunRes.wrote 1 ce2Buf ≠ RunRes.wrote 0 ce2Buf := by
  refine ⟨?_, by decide, by decide, by decide⟩
  decide

end A2W

namespace A2W

theorem assembleOutput_shape (l1 l2 : ℕ) (body md : List ℕ)
    (hlen : 2 ≤ l1 * 256 + l2) :
    assembleOutput (255 :: 216 :: 255 :: 224 :: l1 :: l2 :: body) md
      = 255 :: 216 :: 255 :: 224 :: l1 :: l2 ::
          (body.take (l1 * 256 + l2 - 2)
            ++ (sigSegment ++ (md ++ body.drop (l1 * 256 + l2 - 2)))) := by
  have happ0 : app0LenP4 (255 :: 216 :: 255 :: 224 :: l1 :: l2 :: body)
      = (l1 * 256 + l2 - 2) + 6 := by
    simp [app0LenP4, List.getD]
    omega
  rw [assembleOutput, happ0]
  simp

/-- C7: feeding a file assembled by the metadata-preserving variant back in
as input is detected as already processed via the embedded signature
comment and is never re-compressed: with copy-through enabled the second
run emits a byte-identical copy of its input and exits 0; with copy-through
disabled it exits 2. -/
theorem c7_idempotent (cfg cfg2 : JpegCfg) (k k2 : JpegCodec) (buf metaRaw : List ℕ)
    (its : List Iter) (lo hi : ℕ) (best : Option (ℕ × ℚ)) (lastQ : ℕ)
    (l1 l2 : ℕ) (body : List ℕ)
    (h1 : ¬ cfg.qMax < cfg.qMin) (h2 : buf ≠ [])
    (h4 : metaStep cfg buf = some metaRaw)
    (h5 : jpegSearchOf cfg k (jpegMeta cfg metaRaw) buf = some (.done its lo hi best lastQ))
    (hc : jpegFinalC cfg k lastQ = 255 :: 216 :: 255 :: 224 :: l1 :: l2 :: body)
    (hlen : 2 ≤ l1 * 256 + l2)
    (hbody : l1 * 256 + l2 - 2 ≤ body.length)
    (h6 : ¬ buf.length ≤ (jpegFinalC cfg k lastQ).length + metaSizeCOM
      + (jpegMeta cfg metaRaw).length)
    (h21 : ¬ cfg2.qMax < cfg2.qMin)
    (hft : cfg2.inputFiletype = .auto ∨ cfg2.inputFiletype = .jpeg) :
    runJpeg cfg k true buf
      = .wrote 0 (assembleOutput (jpegFinalC cfg k lastQ) (jpegMeta cfg metaRaw)) ∧
    runJpeg cfg2 k2 true (assembleOutput (jpegFinalC cfg k lastQ) (jpegMeta cfg metaRaw))
      = if cfg2.copyFiles then
          .wrote 0 (assembleOutput (jpegFinalC cfg k lastQ) (jpegMeta cfg metaRaw))
        else .failed 2 := by
  have hstruct : structOk (jpegFinalC cfg k lastQ) = true := by
    rw [hc]
    rfl
  have hshape := assembleOutput_shape l1 l2 body (jpegMeta cfg metaRaw) hlen
  rw [← hc] at hshape
  constructor
  · simp [runJpeg, h1, h2, h4, h5, h6, hstruct]
  · have hne : assembleOutput (jpegFinalC cfg k lastQ) (jpegMeta cfg metaRaw) ≠ [] := by
      rw [hshape]
      simp
    have hdet : detectFiletype (assembleOutput (jpegFinalC cfg k lastQ)
        (jpegMeta cfg metaRaw)) = .jpeg := by
      rw [hshape]
      rfl
    have heff : effFiletype cfg2.inputFiletype
        (assembleOutput (jpegFinalC cfg k lastQ) (jpegMeta cfg metaRaw)) = .jpeg := by
      rcases hft with hft | hft <;> simp [effFiletype, hft, hdet]
    have hgm : getMeta (assembleOutput (jpegFinalC cfg k lastQ) (jpegMeta cfg metaRaw))
        = none := by
      rw [hc]
      exact getMeta_assembled l1 l2 body (jpegMeta cfg metaRaw) hlen hbody
    have hms : metaStep cfg2 (assembleOutput (jpegFinalC cfg k lastQ)
        (jpegMeta cfg metaRaw)) = none := by
      simp [metaStep, heff, hgm]
    cases hcopy : cfg2.copyFiles with
    | true => simp [runJpeg, h21, hne, hms, hcopy]
    | false => simp [runJpeg, h21, hne, hms, hcopy]

/-- C8: every file the metadata-preserving variant writes on its success
path has exactly the layout: SOI marker and APP0 header segment verbatim
from the winning candidate, then the signature comment segment (marker
bytes, 2-byte big-endian length, ASCII signature), then — when metadata is
not stripped — the extracted metadata bytes (a sublist of the original
file, hence in their original relative order), then the candidate's
compressed body. -/
theorem c8_output_layout (cfg : JpegCfg) (k : JpegCodec) (buf metaRaw : List ℕ)
    (its : List Iter) (lo hi : ℕ) (best : Option (ℕ × ℚ)) (lastQ : ℕ)
    (l1 l2 : ℕ) (body : List ℕ)
    (h1 : ¬ cfg.qMax < cfg.qMin) (h2 : buf ≠ [])
    (hstrip : cfg.strip = false)
    (h4 : metaStep cfg buf = some metaRaw)
    (h5 : jpegSearchOf cfg k metaRaw buf = some (.done its lo hi best lastQ))
    (hc : jpegFinalC cfg k lastQ = 255 :: 216 :: 255 :: 224 :: l1 :: l2 :: body)
    (hlen : 2 ≤ l1 * 256 + l2)
    (hbody : l1 * 256 + l2 - 2 ≤ body.length)
    (h6 : ¬ buf.length ≤ (jpegFinalC cfg k lastQ).length + metaSizeCOM + metaRaw.length) :
    runJpeg cfg k true buf = .wrote 0 (assembleOutput (jpegFinalC cfg k lastQ) metaRaw) ∧
    assembleOutput (jpegFinalC cfg k lastQ) metaRaw
      = 255 :: 216 :: 255 :: 224 :: l1 :: l2 ::
          (body.take (l1 * 256 + l2 - 2)
            ++ (sigSegment ++ (metaRaw ++ body.drop (l1 * 256 + l2 - 2)))) ∧
    (assembleOutput (jpegFinalC cfg k lastQ) metaRaw).take (app0LenP4 (jpegFinalC cfg k lastQ))
      = (jpegFinalC cfg k lastQ).take (app0LenP4 (jpegFinalC cfg k lastQ)) ∧
    (assembleOutput (jpegFinalC cfg k lastQ) metaRaw).drop (app0LenP4 (jpegFinalC cfg k lastQ))
      = sigSegment ++ (metaRaw ++ (jpegFinalC cfg k lastQ).drop
          (app0LenP4 (jpegFinalC cfg k lastQ))) ∧
    sigSegment = 255 :: 254 :: 0 :: (COMMENT.length + 2) :: COMMENT ∧
    List.Sublist metaRaw buf := by
  have hmeta : jpegMeta cfg metaRaw = metaRaw := by simp [jpegMeta, hstrip]
  have hstruct : structOk (jpegFinalC cfg k lastQ) = true := by
    rw [hc]
    rfl
  have htlen : ((jpegFinalC cfg k lastQ).take (app0LenP4 (jpegFinalC cfg k lastQ))).length
      = app0LenP4 (jpegFinalC cfg k lastQ) := by
    rw [List.length_take]
    rw [hc]
    simp [app0LenP4, List.getD]
    omega
  refine ⟨?_, ?_, ?_, ?_, rfl, ?_⟩
  · have h5' : jpegSearchOf cfg k (jpegMeta cfg metaRaw) buf
        = some (.done its lo hi best lastQ) := by rw [hmeta]; exact h5
    have h6' : ¬ buf.length ≤ (jpegFinalC cfg k lastQ).length + metaSizeCOM
        + (jpegMeta cfg metaRaw).length := by rw [hmeta]; exact h6
    have := jpegRunRel_run cfg k true buf
    rw [show runJpeg cfg k true buf
        = .wrote 0 (assembleOutput (jpegFinalC cfg k lastQ) (jpegMeta cfg metaRaw)) by
      simp [runJpeg, h1, h2, h4, h5', h6', hstruct]]
    rw [hmeta]
  · rw [hc]
    exact assembleOutput_shape l1 l2 body metaRaw hlen
  · rw [assembleOutput, List.append_assoc, List.append_assoc]
    exact List.take_left' htlen
  · rw [assembleOutput, List.append_assoc, List.append_assoc]
    exact List.drop_left' htlen
  · by_cases hj : effFiletype cfg.inputFiletype buf = .jpeg
    · simp only [metaStep, if_pos hj] at h4
      exact getMeta_sublist buf metaRaw h4
    · simp only [metaStep, if_neg hj] at h4
      obtain rfl : ([] : List ℕ) = metaRaw := Option.some.inj h4
      exact List.nil_sublist buf

end A2W

namespace A2W

/-- Witness run for C7/C8: a JPEG input with one APP1 segment and 100 bytes
of pixel data, a constant 9-byte candidate, a score above target. -/
def w7Cfg : JpegCfg := ⟨.ssim, 1, .medium, 50, 50, 1, false, false, true, false, .auto⟩

def w7K : JpegCodec :=
  ⟨fun _ _ _ => [255, 216, 255, 224, 0, 2, 1, 2, 3], fun _ _ _ => true, fun _ _ _ => (2 : ℚ)⟩

def w7Buf : List ℕ := [255, 216, 255, 225, 0, 4, 7, 7, 255, 218] ++ List.replicate 100 9

theorem c7_witness :
    runJpeg w7Cfg w7K true w7Buf
      = .wrote 0 (assembleOutput
          (jpegFinalC w7Cfg w7K (iterCore .ssim 1 true 50 50 none (w7K.score 50 true true)).quality)
          (jpegMeta w7Cfg [255, 225, 0, 4, 7, 7])) ∧
    runJpeg w7Cfg w7K true
        (assembleOutput
          (jpegFinalC w7Cfg w7K (iterCore .ssim 1 true 50 50 none (w7K.score 50 true true)).quality)
          (jpegMeta w7Cfg [255, 225, 0, 4, 7, 7]))
      = if w7Cfg.copyFiles then
          .wrote 0 (assembleOutput
            (jpegFinalC w7Cfg w7K (iterCore .ssim 1 true 50 50 none (w7K.score 50 true true)).quality)
            (jpegMeta w7Cfg [255, 225, 0, 4, 7, 7]))
        else .failed 2 :=
  c7_idempotent w7Cfg w7Cfg w7K w7K w7Buf [255, 225, 0, 4, 7, 7]
    [iterCore .ssim 1 true 50 50 none (w7K.score 50 true true)]
    (iterCore .ssim 1 true 50 50 none (w7K.score 50 true true)).loNext
    (iterCore .ssim 1 true 50 50 none (w7K.score 50 true true)).hiNext
    (iterCore .ssim 1 true 50 50 none (w7K.score 50 true true)).bestAfter
    (iterCore .ssim 1 true 50 50 none (w7K.score 50 true true)).quality
    0 2 [1, 2, 3]
    (by decide) (by decide) (by decide) rfl rfl (by decide) (by decide) (by decide)
    (by decide) (Or.inl rfl)

theorem c8_witness :
    assembleOutput
        (jpegFinalC w7Cfg w7K (iterCore .ssim 1 true 50 50 none (w7K.score 50 true true)).quality)
        [255, 225, 0, 4, 7, 7]
      = 255 :: 216 :: 255 :: 224 :: 0 :: 2 ::
          ([1, 2, 3].take (0 * 256 + 2 - 2)
            ++ (sigSegment ++ ([255, 225, 0, 4, 7, 7] ++ [1, 2, 3].drop (0 * 256 + 2 - 2)))) ∧
    List.Sublist [255, 225, 0, 4, 7, 7] w7Buf :=
  ⟨(c8_output_layout w7Cfg w7K w7Buf [255, 225, 0, 4, 7, 7]
      [iterCore .ssim 1 true 50 50 none (w7K.score 50 true true)]
      (iterCore .ssim 1 true 50 50 none (w7K.score 50 true true)).loNext
      (iterCore .ssim 1 true 50 50 none (w7K.score 50 true true)).hiNext
      (iterCore .ssim 1 true 50 50 none (w7K.score 50 true true)).bestAfter
      (iterCore .ssim 1 true 50 50 none (w7K.score 50 true true)).quality
      0 2 [1, 2, 3]
      (by decide) (by decide) rfl (by decide) rfl rfl (by decide) (by decide)
      (by decide)).2.1,
   (c8_output_layout w7Cfg w7K w7Buf [255, 225, 0, 4, 7, 7]
      [iterCore .ssim 1 true 50 50 none (w7K.score 50 true true)]
      (iterCore .ssim 1 true 50 50 none (w7K.score 50 true true)).loNext
      (iterCore .ssim 1 true 50 50 none (w7K.score 50 true true)).hiNext
      (iterCore .ssim 1 true 50 50 none (w7K.score 50 true true)).bestAfter
      (iterCore .ssim 1 true 50 50 none (w7K.score 50 true true)).quality
      0 2 [1, 2, 3]
      (by decide) (by decide) rfl (by decide) rfl rfl (by decide) (by decide)
      (by decide)).2.2.2.2.2⟩

end A2W

namespace A2W

/-- C9: for either variant, two runs of the control-flow relation on
identical input bytes and identical option values (with the codecs and
metrics modelled as deterministic functions) produce the same result —
byte-identical output and identical exit code. -/
theorem c9_determinism :
    (∀ (cfg : JpegCfg) (k : JpegCodec) (dok : Bool) (buf : List ℕ) (r1 r2 : RunRes),
      JpegRunRel cfg k dok buf r1 → JpegRunRel cfg k dok buf r2 → r1 = r2) ∧
    (∀ (cfg : WebpCfg) (k : WebpCodec) (initOk dok igOk : Bool) (buf : List ℕ)
        (r1 r2 : RunRes),
      WebpRunRel cfg k initOk dok igOk buf r1 → WebpRunRel cfg k initOk dok igOk buf r2 →
      r1 = r2) :=
  ⟨fun _ _ _ _ _ _ hA hB => jpegRunRel_det hA hB,
   fun _ _ _ _ _ _ _ _ hA hB => webpRunRel_det hA hB⟩

def c9wCfg : WebpCfg := ⟨.ssim, 1, .medium, 9, 9, 1, .ppm⟩

theorem c9_witness :
    runJpeg w7Cfg w7K true w7Buf
      = .wrote 0 (assembleOutput [255, 216, 255, 224, 0, 2, 1, 2, 3] [255, 225, 0, 4, 7, 7]) ∧
    runWebp c9wCfg wkW true true true [7] = .wrote 0 [9] :=
  ⟨c9_determinism.1 w7Cfg w7K true w7Buf _ _ (jpegRunRel_run w7Cfg w7K true w7Buf)
      ((show runJpeg w7Cfg w7K true w7Buf
          = .wrote 0 (assembleOutput [255, 216, 255, 224, 0, 2, 1, 2, 3]
              [255, 225, 0, 4, 7, 7]) by decide) ▸ jpegRunRel_run w7Cfg w7K true w7Buf),
   c9_determinism.2 c9wCfg wkW true true true [7] _ _
      (webpRunRel_run c9wCfg wkW true true true [7])
      ((show runWebp c9wCfg wkW true true true [7] = .wrote 0 [9] by decide) ▸
        webpRunRel_run c9wCfg wkW true true true [7])⟩

end A2W
